import Mathlib

/-!
Verification of the table-reconciliation ("upsert/diff/delete") engine of
`genie/process_functions.py` (functions `_check_valid_df`, `_get_left_diff_df`,
`_get_left_union_df`, `_append_rows`, `_delete_rows`, `_update_rows`,
`updateDatabase`, `removeStringFloat`) against its specification.

Shallow embedding conventions:

* A pandas scalar cell is `Cell := Option String`: `none` models a missing
  value (NaN/None); `some s` models a (string-coerced) scalar.  The engine
  compares scalars only for (in)equality and string-joins them, both of which
  are faithfully represented on strings.
* A dataframe `DF` is a column-name list plus an ordered list of
  (index-label, cells) rows.  The store's per-row locator `"rowid_rowversion"`
  lives in the index label, exactly as in the Synapse table dataframes the
  source manipulates (the source reads identity from `df.index`).
* Fallible pandas operations are `Except String`; the error strings name the
  Python exception raised.  Semantics embedded for the pandas operations used:
  `df[cols]` raises `KeyError` when a requested label is missing;
  `df != df2` raises unless the frames are identically labeled;
  `.loc`-assignment aligns its right-hand side by index label and raises
  `ValueError` when the labels being aligned contain duplicates;
  `fillna(..., inplace=True)` mutates the argument in place, so the embedded
  functions return the post-call state of their dataframe arguments alongside
  the result.
-/

/-- A pandas scalar cell: `none` is a missing value (NaN/None). -/
abbrev Cell := Option String

/-- Shallow embedding of a pandas dataframe: ordered columns plus ordered
rows, each row an index label together with its positional cells. -/
structure DF where
  cols : List String
  rows : List (String × List Cell)
deriving Repr, DecidableEq

/-- Position of column `c` in a column list (pandas column lookup); `none`
when the column is absent. -/
def colIdxL (cols : List String) (c : String) : Option Nat :=
  match cols with
  | [] => none
  | c0 :: rest => if c0 = c then some 0 else (colIdxL rest c).map (· + 1)

/-- Column lookup on a dataframe. -/
def DF.colIdx (df : DF) (c : String) : Option Nat :=
  colIdxL df.cols c

/-- Cell of a row at column position `i` (`none` when out of range; pandas
rows are never ragged, so call sites only use in-range positions). -/
def rowGet (r : List Cell) (i : Nat) : Cell :=
  r.getD i none

/-- Normalization of one cell by `fillna('')`: missing becomes `""`. -/
def fillCell (v : Cell) : Cell :=
  some (v.getD "")

/-- Embeds `df.fillna('')`: every missing value becomes the empty string. -/
def DF.fillna (df : DF) : DF :=
  { df with rows := df.rows.map (fun lr => (lr.1, lr.2.map fillCell)) }

/-- Embeds `_check_valid_df(df, checkby)`: raises `ValueError` when the
`checkby` column is absent.  (The `isinstance` dataframe check of the source
cannot fail in the embedding, where every argument is a `DF`.) -/
def checkValidDf (df : DF) (checkby : String) : Except String Unit :=
  if (df.colIdx checkby).isSome then .ok ()
  else .error ("ValueError: " ++ checkby ++ " column must exist in both dataframes")

/-- Embeds `_get_left_diff_df(left, right, checkby)`: the subset of `left`
whose `checkby` values do not appear among `right`'s `checkby` values. -/
def getLeftDiffDf (left right : DF) (checkby : String) : Except String DF := do
  checkValidDf left checkby
  checkValidDf right checkby
  let li := (left.colIdx checkby).getD 0
  let ri := (right.colIdx checkby).getD 0
  let rvals := right.rows.map (fun lr => rowGet lr.2 ri)
  .ok { cols := left.cols,
        rows := left.rows.filter (fun lr => !(rvals.contains (rowGet lr.2 li))) }

/-- Embeds `_get_left_union_df(left, right, checkby)`: the subset of `left`
whose `checkby` values do appear among `right`'s `checkby` values. -/
def getLeftUnionDf (left right : DF) (checkby : String) : Except String DF := do
  checkValidDf left checkby
  checkValidDf right checkby
  let li := (left.colIdx checkby).getD 0
  let ri := (right.colIdx checkby).getD 0
  let rvals := right.rows.map (fun lr => rowGet lr.2 ri)
  .ok { cols := left.cols,
        rows := left.rows.filter (fun lr => rvals.contains (rowGet lr.2 li)) }

/-- Embeds `del df[c]` (presence of `c` is guaranteed at every call site by a
preceding validation, so the missing-column `KeyError` branch is not taken). -/
def DF.dropCol (df : DF) (c : String) : DF :=
  match df.colIdx c with
  | some i => { cols := df.cols.eraseIdx i,
                rows := df.rows.map (fun lr => (lr.1, lr.2.eraseIdx i)) }
  | none => df

/-- Embeds `df.reset_index(drop=True)`: a dense zero-based index. -/
def DF.resetIndex (df : DF) : DF :=
  { df with rows := df.rows.enum.map (fun p => (toString p.1, p.2.2)) }

/-- Embeds `_append_rows(new_datasetdf, databasedf, checkby)`.  The
`fillna('', inplace=True)` calls mutate the arguments, so the post-call states
of `new_datasetdf` and `databasedf` are returned together with the rows to
append. -/
def appendRows (new_datasetdf databasedf : DF) (checkby : String) :
    Except String (DF × DF × DF) := do
  let databasedf := databasedf.fillna
  let new_datasetdf := new_datasetdf.fillna
  let appenddf ← getLeftDiffDf new_datasetdf databasedf checkby
  let appenddf := (appenddf.dropCol checkby).resetIndex
  .ok (new_datasetdf, databasedf, appenddf)

/-- Python's `s.split(sep)` for a one-character separator. -/
def splitOnChar (sep : Char) : List Char → List (List Char)
  | [] => [[]]
  | c :: rest =>
    match splitOnChar sep rest with
    | [] => [[c]]
    | g :: gs => if c = sep then [] :: g :: gs else (c :: g) :: gs

/-- Embeds `(rowid.split("_")[0], rowid.split("_")[1])`: the first two
underscore-separated components of a locator; raises `IndexError` when the
locator has no underscore (fewer than two components). -/
def locatorIdentity (rowid : String) : Except String (String × String) :=
  match splitOnChar '_' rowid.data with
  | a :: b :: _ => .ok (⟨a⟩, ⟨b⟩)
  | _ => .error "IndexError: list index out of range"

/-- Embeds `_delete_rows(new_datasetdf, databasedf, checkby)`: store rows
whose key is absent from the new dataset, reported as their
`(row_id, row_version)` locator components.  Post-call argument states are
returned first (in-place `fillna`). -/
def deleteRows (new_datasetdf databasedf : DF) (checkby : String) :
    Except String (DF × DF × List (String × String)) := do
  let databasedf := databasedf.fillna
  let new_datasetdf := new_datasetdf.fillna
  let deletedf ← getLeftDiffDf databasedf new_datasetdf checkby
  if deletedf.rows.isEmpty then
    .ok (new_datasetdf, databasedf, [])
  else do
    let pairs ← deletedf.rows.mapM (fun lr => locatorIdentity lr.1)
    .ok (new_datasetdf, databasedf, pairs)

/-- Embeds `df.index = df[checkby]` (index labels replaced by the values of
the `checkby` column at position `i`; at every call site the frame has been
`fillna`-normalized, so the cells are all `some _` strings). -/
def DF.setIndexToCol (df : DF) (i : Nat) : DF :=
  { df with rows := df.rows.map (fun lr => ((rowGet lr.2 i).getD "", lr.2)) }

/-- Keep only the first row for each index label (pandas
`df[~df.index.duplicated()]`, which keeps first occurrences): each kept row
filters every later row carrying its label out of the deduplicated tail. -/
def dedupByLabel : List (String × List Cell) → List (String × List Cell)
  | [] => []
  | lr :: rest => lr :: (dedupByLabel rest).filter (fun x => !(x.1 = lr.1))

/-- Embeds `df[~df.index.duplicated()]`. -/
def DF.dropDupIndex (df : DF) : DF :=
  { df with rows := dedupByLabel df.rows }

/-- Embeds the single-label lookup performed by `df.loc[labels]` on a frame
with a unique index: the first (only) row carrying the label; `KeyError` when
the label is absent. -/
def locFind (df : DF) (label : String) : Except String (List Cell) :=
  match df.rows.find? (fun lr => lr.1 = label) with
  | some lr => .ok lr.2
  | none => .error "KeyError: label not in index"

/-- Embeds `df.loc[labels]` for a list of labels (the source's
`updatesetdf.loc[updating_databasedf.index]`): one row per requested label,
in the requested order. -/
def locReindex (df : DF) (labels : List String) : Except String DF := do
  let rows ← labels.mapM (fun l => (locFind df l).map (fun r => (l, r)))
  .ok { cols := df.cols, rows := rows }

/-- Row-level inequality of the elementwise dataframe comparison
`(updatesetdf != updating_databasedf).apply(sum, axis=1) > 0`: a row differs
when any cell differs.  Both frames are `fillna`-normalized at the point of
comparison, so the NaN-is-never-equal pandas rule cannot fire. -/
def rowNe (a b : List Cell) : Bool :=
  a != b

/-- Does a list of labels contain a duplicate? -/
def hasDupStr : List String → Bool
  | [] => false
  | x :: xs => xs.contains x || hasDupStr xs

/-- Embeds the identity re-attachment of `_update_rows`:
`[[rowid.split("_")[0], rowid.split("_")[1]] for rowid, row in
zip(rowids, differentrows) if row]`.  Note that `zip` silently truncates to
the shorter list when the lengths disagree. -/
def attachIdentity (rowids : List String) (differentrows : List Bool) :
    Except String (List (String × String)) :=
  (((rowids.zip differentrows).filter (fun p => p.2)).map (fun p => p.1)).mapM
    locatorIdentity

/-- Embeds `_update_rows(new_datasetdf, databasedf, checkby)`.

Pipeline, line for line with the source: in-place `fillna` on both arguments;
`updatesetdf`/`updating_databasedf` as the two key-overlap subsets; capture of
`rowids = updating_databasedf.index.values` before any reindexing; reindexing
of both subsets by the `checkby` column; removal of duplicated index entries
from `updatesetdf` (first kept); positional realignment
`updatesetdf.loc[updating_databasedf.index]`; the elementwise comparison
(which raises `ValueError` unless both frames carry identical column labels —
their index labels coincide by construction); and, when any row differs, the
`.loc`-mask assignment (whose right-hand side is aligned by label and raises
`ValueError` when the differing rows' labels contain duplicates), deletion of
the `checkby` column, and re-attachment of `ROW_ID`/`ROW_VERSION` from the
captured positional `rowids` (pandas raises `ValueError` if the assigned
column length mismatches).  Post-call argument states are returned first. -/
def updateRows (new_datasetdf databasedf : DF) (checkby : String) :
    Except String (DF × DF × DF) := do
  let databasedf := databasedf.fillna
  let new_datasetdf := new_datasetdf.fillna
  let updatesetdf ← getLeftUnionDf new_datasetdf databasedf checkby
  let updating_databasedf ← getLeftUnionDf databasedf new_datasetdf checkby
  let rowids := updating_databasedf.rows.map (fun lr => lr.1)
  let ni := (new_datasetdf.colIdx checkby).getD 0
  let di := (databasedf.colIdx checkby).getD 0
  let updatesetdf := updatesetdf.setIndexToCol ni
  let updating_databasedf := updating_databasedf.setIndexToCol di
  let updatesetdf := updatesetdf.dropDupIndex
  let labels := updating_databasedf.rows.map (fun lr => lr.1)
  let updatesetdf ← locReindex updatesetdf labels
  if updatesetdf.cols ≠ updating_databasedf.cols then
    .error "ValueError: Can only compare identically-labeled DataFrame objects"
  else
    let differentrows :=
      (updatesetdf.rows.zip updating_databasedf.rows).map
        (fun p => rowNe p.1.2 p.2.2)
    if differentrows.any id then do
      let maskedLabels :=
        ((labels.zip differentrows).filter (fun p => p.2)).map (fun p => p.1)
      if hasDupStr maskedLabels then
        .error "ValueError: cannot reindex from a duplicate axis"
      else
        let toupdate :=
          ((updatesetdf.rows.zip differentrows).filter (fun p => p.2)).map
            (fun p => p.1)
        let pairs ← attachIdentity rowids differentrows
        if pairs.length ≠ toupdate.length then
          .error "ValueError: Length of values does not match length of index"
        else
          let cbi := (colIdxL updating_databasedf.cols checkby).getD 0
          let outCols :=
            updating_databasedf.cols.eraseIdx cbi ++ ["ROW_ID", "ROW_VERSION"]
          let outRows :=
            ((toupdate.zip pairs).enum).map
              (fun p =>
                (toString p.1,
                 p.2.1.2.eraseIdx cbi ++ [some p.2.2.1, some p.2.2.2]))
          .ok (new_datasetdf, databasedf, { cols := outCols, rows := outRows })
    else
      .ok (new_datasetdf, databasedf, { cols := [], rows := [] })

/-- The rows-to-update result of `_update_rows`, with the post-call states of
the (mutated) arguments projected away. -/
def updateRowsResult (new_datasetdf databasedf : DF) (checkby : String) :
    Except String DF :=
  (updateRows new_datasetdf databasedf checkby).map (fun t => t.2.2)

/-- Embeds `df[cs]` column selection/reordering: raises `KeyError` when any
requested column is missing (pandas list-indexing with missing labels). -/
def DF.selectCols (df : DF) (cs : List String) : Except String DF :=
  if cs.all (fun c => (df.colIdx c).isSome) then
    .ok { cols := cs,
          rows := df.rows.map
            (fun lr => (lr.1, cs.map (fun c => rowGet lr.2 ((df.colIdx c).getD 0)))) }
  else .error "KeyError: columns not in index"

/-- Embeds `df[c] = vals` for a whole-column assignment: replaces the column
when it exists, otherwise appends it as the last column. -/
def DF.setCol (df : DF) (c : String) (vals : List Cell) : DF :=
  match df.colIdx c with
  | some i => { cols := df.cols,
                rows := (df.rows.zip vals).map (fun p => (p.1.1, p.1.2.set i p.2)) }
  | none => { cols := df.cols ++ [c],
              rows := (df.rows.zip vals).map (fun p => (p.1.1, p.1.2 ++ [p.2])) }

/-- Embeds lines 520-523 of `updateDatabase` for one frame:
`df[uniqueKeyCols] = df[uniqueKeyCols].applymap(str)` followed by
`df[checkBy] = df[uniqueKeyCols].apply(lambda x: ' '.join(x), axis=1)`.
Cells are already string scalars in the embedding (and the frame is
`fillna`-normalized at both call sites), so `applymap(str)` is the identity;
the composite key is the space-join of the key columns' values.  The column
selections raise `KeyError` when a key column is missing. -/
def buildUniqueKey (df : DF) (uniqueKeyCols : List String) (checkBy : String) :
    Except String DF := do
  let keydf ← df.selectCols uniqueKeyCols
  let keyvals := keydf.rows.map
    (fun lr => some (" ".intercalate (lr.2.map (fun v => v.getD ""))))
  .ok (df.setCol checkBy keyvals)

/-- Reindex one positional row from source columns `cols` to target columns
`order` (missing columns become NaN/`none`). -/
def reindexRow (cols : List String) (r : List Cell) (order : List String) :
    List Cell :=
  order.map (fun c =>
    match colIdxL cols c with
    | some i => rowGet r i
    | none => none)

/-- Embeds `a.append(b)` (pandas `DataFrame.append`): rows concatenated,
columns unioned in order of first appearance, missing cells NaN. -/
def dfAppend (a b : DF) : DF :=
  let ucols := a.cols ++ b.cols.filter (fun c => !(a.cols.contains c))
  { cols := ucols,
    rows := a.rows.map (fun lr => (lr.1, reindexRow a.cols lr.2 ucols)) ++
            b.rows.map (fun lr => (lr.1, reindexRow b.cols lr.2 ucols)) }

/-- One line of the ordered write-batch file `toUpdateAll.csv` (after its
header): either a full row in `columnOrder` (an append, identity cells
missing, or an update, identity cells populated), or a delete identity
pair. -/
inductive BatchEntry where
  | write (vals : List Cell)
  | del (rowId rowVersion : String)
deriving Repr, DecidableEq

/-- Embeds `updateDatabase(syn, database, new_dataset, databaseSynId,
uniqueKeyCols, toDelete)` up to its only output, the ordered write-batch
(header column order plus the file lines, in the order written:
appends-then-updates block first, delete pairs last).  The `syn.store` call
performs I/O on that file and is outside the model.

Faithful step order: `fillna` both frames, capture the store's original
columns, reorder the new dataset's columns to match (`KeyError` when one is
missing), build `UNIQUE_KEY` on both, run `_append_rows`, `_update_rows`,
and (when `toDelete`) `_delete_rows` on the shared mutated frames, then
assemble `allupdates = append-rows ++ update-rows` and select `columnOrder`
(`KeyError` when those columns are missing, which happens when there are
appends but no updates, so no `ROW_ID`/`ROW_VERSION` column exists). -/
def updateDatabase (database new_dataset : DF) (uniqueKeyCols : List String)
    (toDelete : Bool) : Except String (List String × List BatchEntry) := do
  let checkBy := "UNIQUE_KEY"
  let database := database.fillna
  let origDatabaseCols := database.cols
  let columnOrder := ["ROW_ID", "ROW_VERSION"] ++ origDatabaseCols
  let new_dataset := new_dataset.fillna
  let new_dataset ← new_dataset.selectCols origDatabaseCols
  let database ← buildUniqueKey database uniqueKeyCols checkBy
  let new_dataset ← buildUniqueKey new_dataset uniqueKeyCols checkBy
  let r1 ← appendRows new_dataset database checkBy
  let (new_dataset, database, appendrows) := r1
  let r2 ← updateRows new_dataset database checkBy
  let (new_dataset, database, updaterows) := r2
  let deleterows ←
    if toDelete then (deleteRows new_dataset database checkBy).map (fun t => t.2.2)
    else .ok []
  let allupdates := dfAppend (dfAppend { cols := [], rows := [] } appendrows) updaterows
  let writeEntries ←
    if allupdates.rows.isEmpty then .ok []
    else do
      let sel ← allupdates.selectCols columnOrder
      .ok (sel.rows.map (fun lr => BatchEntry.write lr.2))
  let delEntries := deleterows.map (fun p => BatchEntry.del p.1 p.2)
  .ok (columnOrder, writeEntries ++ delEntries)

/-- Python's `s.replace(old, new)` for a three-character pattern `a b c`
(both patterns of `removeStringFloat` have three characters): left-to-right
scan replacing non-overlapping occurrences. -/
def replace3 (a b c : Char) (rep : List Char) : List Char → List Char
  | [] => []
  | [x] => [x]
  | [x, y] => [x, y]
  | x :: y :: z :: rest =>
    if x = a ∧ y = b ∧ z = c then rep ++ replace3 a b c rep rest
    else x :: replace3 a b c rep (y :: z :: rest)

/-- Embeds `removeStringFloat(string)`:
`string.replace(".0\t", "\t").replace(".0\n", "\n")`. -/
def removeStringFloat (s : String) : String :=
  ⟨replace3 '.' '0' '\n' ['\n'] (replace3 '.' '0' '\t' ['\t'] s.data)⟩

/-- Description helper for the amended serialization rule: remove one
trailing `".0"` from a field, if present. -/
def stripDotZero (f : List Char) : List Char :=
  match f.reverse with
  | '0' :: '.' :: rest => rest.reverse
  | _ => f

/-- Serialize a list of (field, terminator) chunks: each field followed by
its one-character terminator (tab between fields, newline at line ends). -/
def joinChunks (chunks : List (List Char × Char)) : List Char :=
  match chunks with
  | [] => []
  | (f, s) :: rest => f ++ s :: joinChunks rest

/-! Helper lemmas about `splitOnChar`. -/

theorem splitOnChar_ne_nil (sep : Char) (l : List Char) :
    splitOnChar sep l ≠ [] := by
  cases l with
  | nil => simp [splitOnChar]
  | cons c rest =>
    simp only [splitOnChar]
    cases h : splitOnChar sep rest with
    | nil => simp
    | cons g gs =>
      by_cases hc : c = sep <;> simp [hc]

theorem splitOnChar_of_not_mem (sep : Char) (l : List Char) (h : sep ∉ l) :
    splitOnChar sep l = [l] := by
  induction l with
  | nil => rfl
  | cons c rest ih =>
    have hc : c ≠ sep := fun hh => h (hh ▸ List.mem_cons_self c rest)
    have hrest : sep ∉ rest := fun hh => h (List.mem_cons_of_mem c hh)
    simp only [splitOnChar, ih hrest, hc, if_false]

theorem splitOnChar_two_of_mem (sep : Char) (l : List Char) (h : sep ∈ l) :
    ∃ a b rest, splitOnChar sep l = a :: b :: rest := by
  induction l with
  | nil => cases h
  | cons c rest ih =>
    simp only [splitOnChar]
    by_cases hc : c = sep
    · cases hg : splitOnChar sep rest with
      | nil => exact absurd hg (splitOnChar_ne_nil sep rest)
      | cons g gs => exact ⟨[], g, gs, by simp [hc]⟩
    · have hrest : sep ∈ rest := by
        cases List.mem_cons.mp h with
        | inl hh => exact absurd hh.symm hc
        | inr hh => exact hh
      obtain ⟨a, b, rest', hsplit⟩ := ih hrest
      exact ⟨c :: a, b, rest', by simp [hsplit, hc]⟩

/-- Claim C10 (confirmed).  Implicit locator-format precondition of
`_delete_rows` (lines 426-430) and `_update_rows` (lines 476-478), both of
which extract row identity by `rowid.split("_")[0]` and
`rowid.split("_")[1]` (embedded as `locatorIdentity`): for a locator
containing at least one underscore, the identity pair is exactly the first
two underscore-separated components — components beyond the second are
silently discarded, and the out-of-range (`IndexError`) branch is
unreachable; for a locator without an underscore the extraction raises
`IndexError` instead of returning. -/
theorem claim_C10 (rowid : String) :
    (rowid.data.contains '_' = true →
      ∃ a b rest, splitOnChar '_' rowid.data = a :: b :: rest ∧
        locatorIdentity rowid = .ok (⟨a⟩, ⟨b⟩)) ∧
    (rowid.data.contains '_' = false →
      locatorIdentity rowid = .error "IndexError: list index out of range") := by
  constructor
  · intro h
    have hmem : '_' ∈ rowid.data := by
      simpa using h
    obtain ⟨a, b, rest, hsplit⟩ := splitOnChar_two_of_mem '_' rowid.data hmem
    exact ⟨a, b, rest, hsplit, by simp [locatorIdentity, hsplit]⟩
  · intro h
    have hmem : '_' ∉ rowid.data := by
      simpa using h
    simp [locatorIdentity, splitOnChar_of_not_mem '_' rowid.data hmem]

/-- Witness for C10: the locator `"12_3_9"` (two underscores: the third
component is discarded) and the underscore-free locator `"abc"`. -/
theorem claim_C10_witness :
    (∃ a b rest, splitOnChar '_' "12_3_9".data = a :: b :: rest ∧
      locatorIdentity "12_3_9" = .ok (⟨a⟩, ⟨b⟩)) ∧
    locatorIdentity "abc" = .error "IndexError: list index out of range" :=
  ⟨(claim_C10 "12_3_9").1 (by decide), (claim_C10 "abc").2 (by decide)⟩

/-- A single matching store row and new-dataset row whose
`fillna`-normalizations agree produce no update. -/
theorem updateRows_single_row_eq (cols : List String) (cb lab l0 : String)
    (rn rs : List Cell) (i : Nat) (hi : colIdxL cols cb = some i)
    (hfill : rn.map fillCell = rs.map fillCell) :
    updateRowsResult ⟨cols, [(lab, rn)]⟩ ⟨cols, [(l0, rs)]⟩ cb =
      .ok ⟨[], []⟩ := by
  simp only [updateRowsResult, updateRows, DF.fillna, DF.colIdx, hi,
    getLeftUnionDf, checkValidDf, DF.setIndexToCol, DF.dropDupIndex,
    dedupByLabel, locReindex, locFind,
    List.map_cons, List.map_nil,
    List.contains_cons, List.contains_nil, hfill, Option.isSome_some,
    if_true, Option.getD_some, beq_self_eq_true, Bool.or_false,
    List.filter_cons, List.filter_nil]
  have hded : dedupByLabel [((rowGet (rs.map fillCell) i).getD "",
      rs.map fillCell)] = [((rowGet (rs.map fillCell) i).getD "",
      rs.map fillCell)] := by
    simp [dedupByLabel]
  simp [bind, Except.bind, Except.map, pure, Except.pure, List.mapM.loop,
    List.find?, rowNe, hasDupStr, attachIdentity, hded]

/-- Claim C3 (confirmed).  Null-equivalence in `_update_rows` (lines
451-453): a store row and a new-dataset row that agree everywhere except
that one has a missing value (`none`) where the other has the empty string
in some column `j` produce no update, in either direction — missing values
are normalized to the empty string (`fillna`) before any comparison.  Both
rows are `rs` with position `j` overwritten, so they agree on the key and on
every other column. -/
theorem claim_C3 (cols : List String) (cb lab l0 : String) (rs : List Cell)
    (j : Nat) (hcb : (colIdxL cols cb).isSome = true) :
    updateRowsResult ⟨cols, [(lab, rs.set j none)]⟩
        ⟨cols, [(l0, rs.set j (some ""))]⟩ cb = .ok ⟨[], []⟩ ∧
    updateRowsResult ⟨cols, [(lab, rs.set j (some ""))]⟩
        ⟨cols, [(l0, rs.set j none)]⟩ cb = .ok ⟨[], []⟩ := by
  obtain ⟨i, hi⟩ := Option.isSome_iff_exists.mp hcb
  have hmap : (rs.set j none).map fillCell = (rs.set j (some "")).map fillCell := by
    rw [List.map_set, List.map_set]
    rfl
  exact ⟨updateRows_single_row_eq cols cb lab l0 _ _ i hi hmap,
    updateRows_single_row_eq cols cb lab l0 _ _ i hi hmap.symm⟩

/-- Witness for C3: a two-column row-set keyed by column `k`; the store has
`""` in column `x`, the new dataset has a missing value there (and the
mirrored direction). -/
theorem claim_C3_witness :
    updateRowsResult ⟨["k", "x"], [("0", [some "a", some "q"].set 1 none)]⟩
        ⟨["k", "x"], [("7_1", [some "a", some "q"].set 1 (some ""))]⟩ "k" =
      .ok ⟨[], []⟩ ∧
    updateRowsResult ⟨["k", "x"], [("0", [some "a", some "q"].set 1 (some ""))]⟩
        ⟨["k", "x"], [("7_1", [some "a", some "q"].set 1 none)]⟩ "k" =
      .ok ⟨[], []⟩ :=
  claim_C3 ["k", "x"] "k" "0" "7_1" [some "a", some "q"] 1 (by decide)

/-- The post-call state of the arguments of `_append_rows` is their
`fillna('')`-normalization (the source normalizes with `inplace=True`). -/
theorem appendRows_post (new db : DF) (cb : String) (r : DF × DF × DF)
    (h : appendRows new db cb = .ok r) :
    r.1 = new.fillna ∧ r.2.1 = db.fillna := by
  unfold appendRows at h
  simp only [bind, Except.bind] at h
  split at h
  · exact Except.noConfusion h
  · injection h with h1
    subst h1
    exact ⟨rfl, rfl⟩

/-- The post-call state of the arguments of `_delete_rows` is their
`fillna('')`-normalization. -/
theorem deleteRows_post (new db : DF) (cb : String)
    (r : DF × DF × List (String × String))
    (h : deleteRows new db cb = .ok r) :
    r.1 = new.fillna ∧ r.2.1 = db.fillna := by
  unfold deleteRows at h
  simp only [bind, Except.bind] at h
  split at h
  · exact Except.noConfusion h
  · split at h
    · injection h with h1
      subst h1
      exact ⟨rfl, rfl⟩
    · split at h
      · exact Except.noConfusion h
      · injection h with h1
        subst h1
        exact ⟨rfl, rfl⟩

/-- The post-call state of the arguments of `_update_rows` is their
`fillna('')`-normalization. -/
theorem updateRows_post (new db : DF) (cb : String) (r : DF × DF × DF)
    (h : updateRows new db cb = .ok r) :
    r.1 = new.fillna ∧ r.2.1 = db.fillna := by
  unfold updateRows at h
  simp only [bind, Except.bind] at h
  repeat' split at h
  all_goals first
    | exact Except.noConfusion h
    | (injection h with h1
       subst h1
       exact ⟨rfl, rfl⟩)

/-- Counterexample to claim C8 as stated.  The extraction functions do not
leave the caller's inputs unchanged: `_append_rows` normalizes with
`databasedf.fillna('', inplace=True)` (line 397), mutating the caller's
frame.  Concretely, a store with a missing value comes back from the call
with that value replaced by `""`: the post-call state of the store argument
differs from the store passed in. -/
theorem claim_C8_counterexample :
    appendRows ⟨["k"], [("0", [some "a"])]⟩ ⟨["k"], [("1_1", [none])]⟩ "k" =
      .ok (⟨["k"], [("0", [some "a"])]⟩, ⟨["k"], [("1_1", [some ""])]⟩,
           ⟨[], [("0", [])]⟩) ∧
    (⟨["k"], [("1_1", [some ""])]⟩ : DF) ≠ ⟨["k"], [("1_1", [none])]⟩ := by
  constructor
  · rfl
  · decide

/-- Claim C8 (corrected).  The append, update, and delete extractions do
mutate the caller's inputs: the missing-value normalization is performed in
place (`fillna('', inplace=True)`), not on copies, so after every successful
call the caller's two frames are exactly the `fillna('')`-normalizations of
what was passed in (and are therefore changed whenever an input contained a
missing value).  Nothing beyond that normalization is mutated. -/
theorem claim_C8_amended (new db : DF) (cb : String) :
    (∀ r, appendRows new db cb = .ok r → r.1 = new.fillna ∧ r.2.1 = db.fillna) ∧
    (∀ r, updateRows new db cb = .ok r → r.1 = new.fillna ∧ r.2.1 = db.fillna) ∧
    (∀ r, deleteRows new db cb = .ok r → r.1 = new.fillna ∧ r.2.1 = db.fillna) :=
  ⟨fun r h => appendRows_post new db cb r h,
   fun r h => updateRows_post new db cb r h,
   fun r h => deleteRows_post new db cb r h⟩

/-- Witness for the amended C8: the counterexample's input, run through
`_append_rows`; its post-call store state is the `fillna` of the input. -/
theorem claim_C8_witness :
    (⟨["k"], [("0", [some "a"])]⟩ : DF) =
        (⟨["k"], [("0", [some "a"])]⟩ : DF).fillna ∧
    (⟨["k"], [("1_1", [some ""])]⟩ : DF) =
        (⟨["k"], [("1_1", [none])]⟩ : DF).fillna :=
  (claim_C8_amended ⟨["k"], [("0", [some "a"])]⟩ ⟨["k"], [("1_1", [none])]⟩
      "k").1
    (⟨["k"], [("0", [some "a"])]⟩, ⟨["k"], [("1_1", [some ""])]⟩,
      ⟨[], [("0", [])]⟩) (by rfl)

@[simp]
theorem fillna_cols (df : DF) : df.fillna.cols = df.cols := rfl

/-- Claim C6 (confirmed).  Column-mismatch fail-fast in `updateDatabase`:
when the new dataset lacks a non-identity column of the store (the store's
dataframe columns — row identity lives in its index, not in a column), the
column reordering `new_dataset = new_dataset[origDatabaseCols]` (line 519)
raises (`KeyError`; the specification's name for this failure is
`ColumnMismatchError`) before `UNIQUE_KEY` construction and before any of
the append/update/delete extractions run, and the whole call yields only
that error — no partial write-batch of any kind exists, with or without
deletion enabled. -/
theorem claim_C6 (db new : DF) (uk : List String) (td : Bool) (c : String)
    (hc : c ∈ db.cols) (hmiss : colIdxL new.cols c = none) :
    updateDatabase db new uk td = .error "KeyError: columns not in index" := by
  have hall : db.cols.all (fun c => (colIdxL new.cols c).isSome) = false := by
    rw [Bool.eq_false_iff]
    intro htrue
    rw [List.all_eq_true] at htrue
    have := htrue c hc
    rw [hmiss] at this
    exact Bool.noConfusion this
  unfold updateDatabase
  simp only [DF.selectCols, DF.colIdx, fillna_cols, hall, Bool.false_eq_true,
    if_false, bind, Except.bind]

/-- Witness for C6: the store has columns `test, foo`; the new dataset lacks
`foo`. -/
theorem claim_C6_witness :
    updateDatabase ⟨["test", "foo"], [("1_3", [some "t1", some "1"])]⟩
        ⟨["test"], [("0", [some "t1"])]⟩ ["test"] true =
      .error "KeyError: columns not in index" :=
  claim_C6 ⟨["test", "foo"], [("1_3", [some "t1", some "1"])]⟩
    ⟨["test"], [("0", [some "t1"])]⟩ ["test"] true "foo" (by decide) (by decide)

/-- A successful `Except`-valued `mapM` yields a list of the input's
length. -/
theorem mapM_except_length {α β : Type} (f : α → Except String β) :
    ∀ (l : List α) (r : List β), l.mapM f = .ok r → r.length = l.length := by
  intro l
  induction l with
  | nil =>
    intro r h
    simp only [List.mapM_nil, pure, Except.pure] at h
    injection h with h1
    rw [← h1]
    rfl
  | cons a t ih =>
    intro r h
    rw [List.mapM_cons] at h
    simp only [bind, Except.bind, pure, Except.pure] at h
    cases hfa : f a with
    | error e => rw [hfa] at h; exact Except.noConfusion h
    | ok b =>
      rw [hfa] at h
      cases hmt : t.mapM f with
      | error e => rw [hmt] at h; exact Except.noConfusion h
      | ok bs =>
        rw [hmt] at h
        injection h with h1
        rw [← h1, List.length_cons, ih bs hmt]
        rfl

/-- Counterexample to claim C7 as stated.  The source contains no
`AlignmentError` at all: the identity re-attachment (lines 476-478 of
`_update_rows`, embedded as `attachIdentity`) pairs the captured positional
identity list with the differing-row mask by `zip`, which on a length
mismatch does not fail — it silently truncates.  Concretely, an identity
list of length 2 against a mask of length 1 succeeds and silently drops the
second identity. -/
theorem claim_C7_counterexample :
    attachIdentity ["1_2", "3_4"] [true] = .ok [("1", "2")] ∧
    ["1_2", "3_4"].length ≠ [true].length := by
  constructor
  · rfl
  · decide

/-- Claim C7 (corrected).  No input of `_update_rows` can reach the identity
re-attachment with misaligned lists: the positional identity list (the
pre-reindex index of the matched store subset) and the differing-row mask
always have equal length by construction, so the truncating `zip` never
actually drops a row.  The hypotheses name the intermediate frames exactly
as `_update_rows` computes them (the two key-overlap subsets and the
deduplicated, key-realigned new subset). -/
theorem claim_C7_amended (new db : DF) (cb : String) (mnew mstore aligned : DF)
    (hmn : getLeftUnionDf new.fillna db.fillna cb = .ok mnew)
    (hms : getLeftUnionDf db.fillna new.fillna cb = .ok mstore)
    (hal : locReindex
        ((mnew.setIndexToCol ((new.fillna.colIdx cb).getD 0)).dropDupIndex)
        ((mstore.setIndexToCol ((db.fillna.colIdx cb).getD 0)).rows.map
          (fun lr => lr.1)) = .ok aligned) :
    (mstore.rows.map (fun lr => lr.1)).length =
      ((aligned.rows.zip
          (mstore.setIndexToCol ((db.fillna.colIdx cb).getD 0)).rows).map
        (fun p => rowNe p.1.2 p.2.2)).length := by
  have halen : aligned.rows.length = (mstore.setIndexToCol
      ((db.fillna.colIdx cb).getD 0)).rows.length := by
    unfold locReindex at hal
    simp only [bind, Except.bind] at hal
    split at hal
    · exact Except.noConfusion hal
    · rename_i v heq
      injection hal with h1
      rw [← h1]
      rw [mapM_except_length _ _ v heq, List.length_map]
  simp only [List.length_map, List.length_zip, halen, DF.setIndexToCol,
    List.length_map, Nat.min_self]

/-- Witness for the amended C7: a one-row store and one-row new dataset
sharing key `"a"`; both intermediate lists have length one. -/
theorem claim_C7_witness :
    ((⟨["k"], [("1_2", [some "a"])]⟩ : DF).rows.map (fun lr => lr.1)).length =
      (((⟨["k"], [("a", [some "a"])]⟩ : DF).rows.zip
          ((⟨["k"], [("1_2", [some "a"])]⟩ : DF).setIndexToCol
            (((⟨["k"], [("0", [some "a"])]⟩ : DF).fillna.colIdx "k").getD
              0)).rows).map
        (fun p => rowNe p.1.2 p.2.2)).length :=
  claim_C7_amended ⟨["k"], [("0", [some "a"])]⟩ ⟨["k"], [("1_2", [some "a"])]⟩
    "k" ⟨["k"], [("0", [some "a"])]⟩ ⟨["k"], [("1_2", [some "a"])]⟩
    ⟨["k"], [("a", [some "a"])]⟩ (by rfl) (by rfl) (by rfl)

/-- A non-matching head position is skipped by the replacement scan. -/
theorem replace3_cons (a b c x : Char) (rep t : List Char)
    (h : ¬(x = a ∧ t.head? = some b ∧ t.tail.head? = some c)) :
    replace3 a b c rep (x :: t) = x :: replace3 a b c rep t := by
  cases t with
  | nil => rfl
  | cons y t' =>
    cases t' with
    | nil => rfl
    | cons z t'' =>
      have hcond : ¬(x = a ∧ y = b ∧ z = c) := by
        intro hc
        exact h ⟨hc.1, by simp [hc.2.1], by simp [hc.2.2]⟩
      simp only [replace3, hcond, if_false]

/-- The replacement scan consumes a field that does not end in `".0"`,
followed by its separator, without changing it. -/
theorem replace3_skip_field (sep : Char) (hs1 : sep ≠ '.') (hs2 : sep ≠ '0') :
    ∀ (f t : List Char), sep ∉ f → ¬(['.', '0'] <:+ f) →
      replace3 '.' '0' sep [sep] (f ++ sep :: t) =
        f ++ sep :: replace3 '.' '0' sep [sep] t := by
  intro f
  induction f with
  | nil =>
    intro t _ _
    exact replace3_cons _ _ _ _ _ _ (fun hc => hs1 hc.1)
  | cons x f' ih =>
    intro t hsep hsfx
    have hsep' : sep ∉ f' := fun hh => hsep (List.mem_cons_of_mem x hh)
    have hsfx' : ¬(['.', '0'] <:+ f') := by
      intro hh
      exact hsfx (hh.trans (List.suffix_cons x f'))
    have hskip : replace3 '.' '0' sep [sep] (x :: (f' ++ sep :: t)) =
        x :: replace3 '.' '0' sep [sep] (f' ++ sep :: t) := by
      apply replace3_cons
      rintro ⟨hx, hh, ht⟩
      cases f' with
      | nil =>
        simp only [List.nil_append, List.head?_cons, Option.some.injEq] at hh
        exact hs2 hh
      | cons y f'' =>
        simp only [List.cons_append, List.head?_cons, Option.some.injEq] at hh
        cases f'' with
        | nil =>
          subst hx
          subst hh
          exact hsfx (List.suffix_refl _)
        | cons z f''' =>
          simp only [List.cons_append, List.tail_cons, List.head?_cons,
            Option.some.injEq] at ht
          exact hsep (ht ▸ (by simp : z ∈ x :: y :: z :: f'''))
    rw [List.cons_append, hskip, ih t hsep' hsfx']
    rfl

/-- The replacement scan strips the `".0"` suffix of a field standing
immediately before its separator. -/
theorem replace3_strip_field (sep : Char) (hs1 : sep ≠ '.') :
    ∀ (f t : List Char), sep ∉ f →
      replace3 '.' '0' sep [sep] (f ++ '.' :: '0' :: sep :: t) =
        f ++ sep :: replace3 '.' '0' sep [sep] t := by
  intro f
  induction f with
  | nil =>
    intro t _
    simp [replace3]
  | cons x f' ih =>
    intro t hsep
    have hsep' : sep ∉ f' := fun hh => hsep (List.mem_cons_of_mem x hh)
    have hskip : replace3 '.' '0' sep [sep] (x :: (f' ++ '.' :: '0' :: sep :: t)) =
        x :: replace3 '.' '0' sep [sep] (f' ++ '.' :: '0' :: sep :: t) := by
      apply replace3_cons
      rintro ⟨hx, hh, ht⟩
      cases f' with
      | nil =>
        simp only [List.nil_append, List.head?_cons, Option.some.injEq] at hh
        exact absurd hh (by decide)
      | cons y f'' =>
        cases f'' with
        | nil =>
          simp only [List.cons_append, List.nil_append, List.tail_cons,
            List.head?_cons, Option.some.injEq] at ht
          exact hs1 ht.symm
        | cons z f''' =>
          simp only [List.cons_append, List.tail_cons, List.head?_cons,
            Option.some.injEq] at ht
          exact hsep (ht ▸ (by simp : z ∈ x :: y :: z :: f'''))
    rw [List.cons_append, hskip, ih t hsep']
    rfl

/-- The replacement scan for separator `sep` passes over a field terminated
by a different separator `d` without changing anything. -/
theorem replace3_cross (sep d : Char) (hd1 : d ≠ '.') (hd2 : d ≠ '0')
    (hd3 : d ≠ sep) :
    ∀ (f t : List Char), sep ∉ f →
      replace3 '.' '0' sep [sep] (f ++ d :: t) =
        f ++ d :: replace3 '.' '0' sep [sep] t := by
  intro f
  induction f with
  | nil =>
    intro t _
    exact replace3_cons _ _ _ _ _ _ (fun hc => hd1 hc.1)
  | cons x f' ih =>
    intro t hsep
    have hsep' : sep ∉ f' := fun hh => hsep (List.mem_cons_of_mem x hh)
    have hskip : replace3 '.' '0' sep [sep] (x :: (f' ++ d :: t)) =
        x :: replace3 '.' '0' sep [sep] (f' ++ d :: t) := by
      apply replace3_cons
      rintro ⟨hx, hh, ht⟩
      cases f' with
      | nil =>
        simp only [List.nil_append, List.head?_cons, Option.some.injEq] at hh
        exact hd2 hh
      | cons y f'' =>
        cases f'' with
        | nil =>
          simp only [List.cons_append, List.nil_append, List.tail_cons,
            List.head?_cons, Option.some.injEq] at ht
          exact hd3 ht
        | cons z f''' =>
          simp only [List.cons_append, List.tail_cons, List.head?_cons,
            Option.some.injEq] at ht
          exact hsep (ht ▸ (by simp : z ∈ x :: y :: z :: f'''))
    rw [List.cons_append, hskip, ih t hsep']
    rfl

theorem stripDotZero_append (g : List Char) :
    stripDotZero (g ++ ['.', '0']) = g := by
  unfold stripDotZero
  simp

theorem stripDotZero_of_not_suffix (f : List Char)
    (h : ¬(['.', '0'] <:+ f)) : stripDotZero f = f := by
  unfold stripDotZero
  split
  · rename_i rest heq
    exfalso
    apply h
    refine ⟨rest.reverse, ?_⟩
    have : f.reverse.reverse = ('0' :: '.' :: rest).reverse := by rw [heq]
    simpa using this.symm
  · rfl

theorem stripDotZero_not_mem (f : List Char) (x : Char) (h : x ∉ f) :
    x ∉ stripDotZero f := by
  unfold stripDotZero
  split
  · rename_i rest heq
    intro hmem
    apply h
    have hrev : x ∈ f.reverse := by
      rw [heq]
      simpa using Or.inr (Or.inr (List.mem_reverse.mp hmem))
    exact List.mem_reverse.mp hrev
  · exact h

/-- One full left-to-right pass of `replace3` for separator `sep` over a
chunked serialization: fields terminated by `sep` lose one trailing `".0"`,
fields terminated by any other separator are untouched. -/
theorem replace3_pass (sep : Char) (hs1 : sep ≠ '.') (hs2 : sep ≠ '0') :
    ∀ (chunks : List (List Char × Char)),
      (∀ p ∈ chunks,
        (p.2 = sep ∨ (p.2 ≠ '.' ∧ p.2 ≠ '0' ∧ p.2 ≠ sep)) ∧ sep ∉ p.1) →
      replace3 '.' '0' sep [sep] (joinChunks chunks) =
        joinChunks (chunks.map
          (fun p => if p.2 = sep then (stripDotZero p.1, p.2) else p)) := by
  intro chunks
  induction chunks with
  | nil => intro _; rfl
  | cons p rest ih =>
    intro h
    obtain ⟨f, d⟩ := p
    have hp := h (f, d) (List.mem_cons_self _ _)
    have hrest := fun q hq => h q (List.mem_cons_of_mem _ hq)
    have hsep : sep ∉ f := hp.2
    have hjoin : joinChunks ((f, d) :: rest) = f ++ d :: joinChunks rest := rfl
    rw [hjoin, List.map_cons]
    rcases hp.1 with hseq | ⟨hd1, hd2, hd3⟩
    · simp only at hseq
      rw [hseq]
      have hif : (if ((f, sep) : List Char × Char).2 = sep
          then (stripDotZero (f, sep).1, (f, sep).2) else (f, sep)) =
          (stripDotZero f, sep) := by
        simp
      rw [hif]
      by_cases hsfx : ['.', '0'] <:+ f
      · obtain ⟨g, hg⟩ := hsfx
        rw [← hg, List.append_assoc]
        simp only [List.cons_append, List.nil_append]
        have hsepg : sep ∉ g := by
          intro hh
          exact hsep (hg ▸ List.mem_append_left _ hh)
        have hb := replace3_strip_field sep hs1 g (joinChunks rest) hsepg
        simp only [List.cons_append, List.nil_append] at hb
        rw [hb, ih hrest, stripDotZero_append]
        rfl
      · rw [replace3_skip_field sep hs1 hs2 f (joinChunks rest) hsep hsfx,
          ih hrest, stripDotZero_of_not_suffix f hsfx]
        rfl
    · simp only at hd1 hd2 hd3
      have hif : (if ((f, d) : List Char × Char).2 = sep
          then (stripDotZero (f, d).1, (f, d).2) else (f, d)) = (f, d) := by
        simp [hd3]
      rw [hif, replace3_cross sep d hd1 hd2 hd3 f (joinChunks rest) hsep,
        ih hrest]
      rfl

/-- Counterexample to claim C9 as stated.  The `".0"` stripping of
`removeStringFloat` is purely textual: it is not restricted to numeric
column values.  The row `a <tab> v1.0 <newline>` carries the *string* value
`"v1.0"` in its second column, which is not a numeral at all, yet the
serialization rewrites it to `"v1"` — another value in the output text is
altered by the stripping. -/
theorem claim_C9_counterexample :
    removeStringFloat "a\tv1.0\n" = "a\tv1\n" ∧
    "a\tv1.0\n" ≠ "a\tv1\n" := by
  constructor
  · rfl
  · decide

/-- Claim C9 (corrected).  The serialization stripping is by textual field
suffix, not by numeric value: writing each serialized field followed by its
one-character terminator (tab between fields, newline at row ends; pandas
fields never contain tabs or newlines), `removeStringFloat` removes exactly
one trailing `".0"` from every field that ends in `".0"` — whether or not
the value is numeric — and leaves every other field byte-for-byte unchanged.
In particular a numeric value rendered `"x.0"` loses its decimal suffix and
a fractional rendering such as `"2.5"` is untouched, but a string value
ending in `".0"` is also altered. -/
theorem claim_C9_amended (chunks : List (List Char × Char))
    (h : ∀ p ∈ chunks, (p.2 = '\t' ∨ p.2 = '\n') ∧ '\t' ∉ p.1 ∧ '\n' ∉ p.1) :
    removeStringFloat ⟨joinChunks chunks⟩ =
      ⟨joinChunks (chunks.map (fun p => (stripDotZero p.1, p.2)))⟩ := by
  have h1 : ∀ p ∈ chunks,
      (p.2 = '\t' ∨ (p.2 ≠ '.' ∧ p.2 ≠ '0' ∧ p.2 ≠ '\t')) ∧ '\t' ∉ p.1 := by
    intro p hp
    obtain ⟨hsep, ht, _⟩ := h p hp
    refine ⟨?_, ht⟩
    rcases hsep with h' | h'
    · exact Or.inl h'
    · exact Or.inr ⟨by rw [h']; decide, by rw [h']; decide, by rw [h']; decide⟩
  have hpass1 := replace3_pass '\t' (by decide) (by decide) chunks h1
  have h2 : ∀ q ∈ chunks.map
      (fun p => if p.2 = '\t' then (stripDotZero p.1, p.2) else p),
      (q.2 = '\n' ∨ (q.2 ≠ '.' ∧ q.2 ≠ '0' ∧ q.2 ≠ '\n')) ∧ '\n' ∉ q.1 := by
    intro q hq
    rw [List.mem_map] at hq
    obtain ⟨p, hp, hpq⟩ := hq
    obtain ⟨hsep, _, hn⟩ := h p hp
    by_cases hc : p.2 = '\t'
    · rw [if_pos hc] at hpq
      rw [← hpq]
      exact ⟨Or.inr ⟨by simp [hc], by simp [hc], by simp [hc]⟩,
        stripDotZero_not_mem p.1 '\n' hn⟩
    · rw [if_neg hc] at hpq
      rw [← hpq]
      rcases hsep with h' | h'
      · exact absurd h' hc
      · exact ⟨Or.inl h', hn⟩
  have hpass2 := replace3_pass '\n' (by decide) (by decide) _ h2
  have hmapmap : (chunks.map
      (fun p => if p.2 = '\t' then (stripDotZero p.1, p.2) else p)).map
        (fun p => if p.2 = '\n' then (stripDotZero p.1, p.2) else p) =
      chunks.map (fun p => (stripDotZero p.1, p.2)) := by
    rw [List.map_map]
    apply List.map_congr_left
    intro p hp
    obtain ⟨hsep, _, _⟩ := h p hp
    rcases hsep with h' | h'
    · simp [Function.comp, h']
    · simp [Function.comp, h']
  show String.mk (replace3 '.' '0' '\n' ['\n']
    (replace3 '.' '0' '\t' ['\t'] (joinChunks chunks))) = _
  rw [hpass1, hpass2, hmapmap]

/-- Witness for the amended C9: the row `1.0 <tab> x.5 <newline>` becomes
`1 <tab> x.5 <newline>` — the integer-rendered field is stripped, the
fractional one untouched. -/
theorem claim_C9_witness :
    removeStringFloat
        ⟨joinChunks [(['1', '.', '0'], '\t'), (['x', '.', '5'], '\n')]⟩ =
      ⟨joinChunks ([(['1', '.', '0'], '\t'), (['x', '.', '5'], '\n')].map
        (fun p => (stripDotZero p.1, p.2)))⟩ :=
  claim_C9_amended [(['1', '.', '0'], '\t'), (['x', '.', '5'], '\n')]
    (by decide)

/-! Helper lemmas about column lookup and row reindexing. -/

theorem colIdxL_getElem (cols : List String) (c : String) :
    ∀ (j : Nat), colIdxL cols c = some j → cols[j]? = some c := by
  induction cols with
  | nil => intro j h; exact Option.noConfusion h
  | cons c0 rest ih =>
    intro j h
    unfold colIdxL at h
    by_cases hc : c0 = c
    · rw [if_pos hc] at h
      injection h with h1
      rw [← h1, List.getElem?_cons_zero, hc]
    · rw [if_neg hc] at h
      cases hrest : colIdxL rest c with
      | none => rw [hrest] at h; exact Option.noConfusion h
      | some j' =>
        rw [hrest] at h
        injection h with h1
        rw [← h1, List.getElem?_cons_succ]
        exact ih j' hrest

theorem colIdxL_eq_none_iff (cols : List String) (c : String) :
    colIdxL cols c = none ↔ c ∉ cols := by
  induction cols with
  | nil => simp [colIdxL]
  | cons c0 rest ih =>
    unfold colIdxL
    by_cases hc : c0 = c
    · simp [hc]
    · simp only [if_neg hc, Option.map_eq_none', ih, List.mem_cons]
      constructor
      · intro h hmem
        rcases hmem with h' | h'
        · exact hc h'.symm
        · exact h h'
      · intro h hmem
        exact h (Or.inr hmem)

theorem rowGet_reindexRow (cols order : List String) (r : List Cell)
    (c : String) (j : Nat) (hj : colIdxL order c = some j) :
    rowGet (reindexRow cols r order) j =
      (match colIdxL cols c with
       | some i => rowGet r i
       | none => none) := by
  have hoj := colIdxL_getElem order c j hj
  unfold reindexRow rowGet
  rw [List.getD_eq_getElem?_getD, List.getElem?_map, hoj]
  rfl

/-- Composing two reindexing steps collapses to one, provided the
intermediate column list covers the source's columns that the target asks
for. -/
theorem reindexRow_comp (cols mid order : List String) (r : List Cell)
    (hsub : ∀ c, colIdxL mid c = none → colIdxL cols c = none) :
    reindexRow mid (reindexRow cols r mid) order = reindexRow cols r order := by
  unfold reindexRow
  apply List.map_congr_left
  intro c _
  cases hc : colIdxL mid c with
  | none => rw [hsub c hc]
  | some j =>
    have h2 := rowGet_reindexRow cols mid r c j hc
    unfold reindexRow at h2
    exact h2

/-- A successful column selection `df[cs]` has columns `cs` and each row
reindexed to `cs`. -/
theorem selectCols_rows (df : DF) (cs : List String) (sel : DF)
    (h : df.selectCols cs = .ok sel) :
    sel.cols = cs ∧
    sel.rows = df.rows.map (fun lr => (lr.1, reindexRow df.cols lr.2 cs)) := by
  unfold DF.selectCols at h
  split at h
  · rename_i hall
    injection h with h1
    rw [← h1]
    refine ⟨rfl, ?_⟩
    simp only
    apply List.map_congr_left
    intro lr _
    congr 1
    unfold reindexRow
    apply List.map_congr_left
    intro c hc
    rw [List.all_eq_true] at hall
    have := hall c hc
    cases hidx : colIdxL df.cols c with
    | none => rw [DF.colIdx, hidx] at this; exact Bool.noConfusion this
    | some i => rw [DF.colIdx, hidx]; rfl
  · exact Except.noConfusion h

theorem dfAppend_nil (b : DF) :
    dfAppend ⟨[], []⟩ b =
      ⟨b.cols, b.rows.map (fun lr => (lr.1, reindexRow b.cols lr.2 b.cols))⟩ := by
  unfold dfAppend
  simp [List.contains]

/-- The batch block written from `allupdates[columnOrder]` is the appended
rows followed by the updated rows, each reindexed to the header column
order. -/
theorem batch_writes_decomp (ap upd : DF) (co : List String) (sel : DF)
    (h : (dfAppend (dfAppend ⟨[], []⟩ ap) upd).selectCols co = .ok sel) :
    sel.rows.map (fun lr => BatchEntry.write lr.2) =
      ap.rows.map (fun lr => BatchEntry.write (reindexRow ap.cols lr.2 co)) ++
      upd.rows.map (fun lr => BatchEntry.write (reindexRow upd.cols lr.2 co)) := by
  rw [dfAppend_nil] at h
  obtain ⟨_, hrows⟩ := selectCols_rows _ co sel h
  rw [hrows]
  unfold dfAppend
  simp only [List.map_append, List.map_map, List.map_cons]
  congr 1
  · apply List.map_congr_left
    intro lr _
    simp only [Function.comp]
    congr 1
    rw [reindexRow_comp ap.cols ap.cols _ lr.2 (fun c hc => hc),
      reindexRow_comp ap.cols
        (ap.cols ++ upd.cols.filter (fun c => !(ap.cols.contains c))) co lr.2]
    intro c hc
    rw [colIdxL_eq_none_iff] at hc ⊢
    intro hmem
    exact hc (List.mem_append_left _ hmem)
  · apply List.map_congr_left
    intro lr _
    simp only [Function.comp]
    congr 1
    rw [reindexRow_comp upd.cols
      (ap.cols ++ upd.cols.filter (fun c => !(ap.cols.contains c))) co lr.2]
    intro c hc
    rw [colIdxL_eq_none_iff] at hc ⊢
    intro hmem
    apply hc
    by_cases hin : c ∈ ap.cols
    · exact List.mem_append_left _ hin
    · refine List.mem_append_right _ ?_
      rw [List.mem_filter]
      refine ⟨hmem, ?_⟩
      simpa using hin

/-- Claim C5 (corrected, amended ordering).  The single ordered write-batch
of `updateDatabase` lists the appended rows first, then the updated rows,
and the delete identity pairs last — not deletes first.  The hypotheses name
the intermediate results exactly as `updateDatabase` computes them (column
reorder, key construction, then the three extractions on the shared mutated
frames); the conclusion fixes the header as `ROW_ID, ROW_VERSION` followed
by the store's original columns and decomposes the batch in file-write
order: appends (identity cells missing), updates (identity cells populated),
then deletes. -/
theorem claim_C5_amended (db new : DF) (uk : List String)
    (new1 db2 new2 n3 d3 appendrows n4 d4 updaterows n5 d5 : DF)
    (dels : List (String × String)) (co : List String)
    (entries : List BatchEntry)
    (hsel : (new.fillna).selectCols db.cols = .ok new1)
    (hdbk : buildUniqueKey db.fillna uk "UNIQUE_KEY" = .ok db2)
    (hnewk : buildUniqueKey new1 uk "UNIQUE_KEY" = .ok new2)
    (happ : appendRows new2 db2 "UNIQUE_KEY" = .ok (n3, d3, appendrows))
    (hupd : updateRows n3 d3 "UNIQUE_KEY" = .ok (n4, d4, updaterows))
    (hdel : deleteRows n4 d4 "UNIQUE_KEY" = .ok (n5, d5, dels))
    (h : updateDatabase db new uk true = .ok (co, entries)) :
    co = "ROW_ID" :: "ROW_VERSION" :: db.cols ∧
    entries =
      appendrows.rows.map
        (fun lr => BatchEntry.write (reindexRow appendrows.cols lr.2 co)) ++
      updaterows.rows.map
        (fun lr => BatchEntry.write (reindexRow updaterows.cols lr.2 co)) ++
      dels.map (fun p => BatchEntry.del p.1 p.2) := by
  unfold updateDatabase at h
  simp only [bind, Except.bind] at h
  rw [show (db.fillna).cols = db.cols from rfl] at h
  rw [hsel, hdbk] at h
  dsimp only at h
  rw [hnewk] at h
  dsimp only at h
  rw [happ] at h
  dsimp only at h
  rw [hupd] at h
  dsimp only at h
  simp only [if_true] at h
  rw [hdel] at h
  simp only [Except.map] at h
  split at h
  · rename_i hemp
    injection h with h1
    injection h1 with hco hent
    have hboth : appendrows.rows = [] ∧ updaterows.rows = [] := by
      unfold dfAppend at hemp
      simp only [List.isEmpty_iff, List.append_eq_nil,
        List.map_eq_nil_iff] at hemp
      exact ⟨hemp.1.2, hemp.2⟩
    refine ⟨hco.symm, ?_⟩
    rw [← hent, hboth.1, hboth.2]
    simp
  · split at h
    · exact Except.noConfusion h
    · rename_i sel heqsel
      injection h with h1
      injection h1 with hco hent
      subst hco
      refine ⟨rfl, ?_⟩
      rw [← hent, batch_writes_decomp appendrows updaterows _ sel heqsel]

/-- Counterexample to claim C5 as stated.  With deletions enabled the batch
does not list the delete identity tuples first: `updateDatabase` writes the
appends-then-updates block first and the delete pairs last.  Store: keys
`test1, test2, test3` with locators `1_3, 2_3, 3_5`; new dataset: `test1`
unchanged, `test2` changed, `test4` new.  The resulting batch is
`[append test4, update test2, delete (3, 5)]`, which differs from the
delete-first ordering the claim requires. -/
theorem claim_C5_counterexample :
    updateDatabase
        ⟨["test", "foo"],
          [("1_3", [some "test1", some "1"]), ("2_3", [some "test2", some "2"]),
           ("3_5", [some "test3", some "9"])]⟩
        ⟨["test", "foo"],
          [("0", [some "test1", some "1"]), ("1", [some "test2", some "5"]),
           ("2", [some "test4", some "7"])]⟩
        ["test"] true =
      .ok (["ROW_ID", "ROW_VERSION", "test", "foo"],
        [.write [none, none, some "test4", some "7"],
         .write [some "2", some "3", some "test2", some "5"],
         .del "3" "5"]) ∧
    ([.write [none, none, some "test4", some "7"],
      .write [some "2", some "3", some "test2", some "5"],
      .del "3" "5"] : List BatchEntry) ≠
      [.del "3" "5",
       .write [none, none, some "test4", some "7"],
       .write [some "2", some "3", some "test2", some "5"]] := by
  constructor
  · rfl
  · decide

/-- Witness for the amended C5, instantiating every intermediate frame of
the counterexample's scenario. -/
theorem claim_C5_witness :
    (["ROW_ID", "ROW_VERSION", "test", "foo"] : List String) =
        "ROW_ID" :: "ROW_VERSION" ::
          (⟨["test", "foo"],
            [("1_3", [some "test1", some "1"]),
             ("2_3", [some "test2", some "2"]),
             ("3_5", [some "test3", some "9"])]⟩ : DF).cols ∧
    ([.write [none, none, some "test4", some "7"],
      .write [some "2", some "3", some "test2", some "5"],
      .del "3" "5"] : List BatchEntry) =
      (⟨["test", "foo"], [("0", [some "test4", some "7"])]⟩ : DF).rows.map
        (fun lr => BatchEntry.write
          (reindexRow (⟨["test", "foo"],
            [("0", [some "test4", some "7"])]⟩ : DF).cols lr.2
            ["ROW_ID", "ROW_VERSION", "test", "foo"])) ++
      (⟨["test", "foo", "ROW_ID", "ROW_VERSION"],
        [("0", [some "test2", some "5", some "2", some "3"])]⟩ : DF).rows.map
        (fun lr => BatchEntry.write
          (reindexRow (⟨["test", "foo", "ROW_ID", "ROW_VERSION"],
            [("0", [some "test2", some "5", some "2", some "3"])]⟩ : DF).cols
            lr.2 ["ROW_ID", "ROW_VERSION", "test", "foo"])) ++
      ([("3", "5")].map (fun p => BatchEntry.del p.1 p.2)) :=
  claim_C5_amended
    ⟨["test", "foo"],
      [("1_3", [some "test1", some "1"]), ("2_3", [some "test2", some "2"]),
       ("3_5", [some "test3", some "9"])]⟩
    ⟨["test", "foo"],
      [("0", [some "test1", some "1"]), ("1", [some "test2", some "5"]),
       ("2", [some "test4", some "7"])]⟩
    ["test"]
    ⟨["test", "foo"],
      [("0", [some "test1", some "1"]), ("1", [some "test2", some "5"]),
       ("2", [some "test4", some "7"])]⟩
    ⟨["test", "foo", "UNIQUE_KEY"],
      [("1_3", [some "test1", some "1", some "test1"]),
       ("2_3", [some "test2", some "2", some "test2"]),
       ("3_5", [some "test3", some "9", some "test3"])]⟩
    ⟨["test", "foo", "UNIQUE_KEY"],
      [("0", [some "test1", some "1", some "test1"]),
       ("1", [some "test2", some "5", some "test2"]),
       ("2", [some "test4", some "7", some "test4"])]⟩
    ⟨["test", "foo", "UNIQUE_KEY"],
      [("0", [some "test1", some "1", some "test1"]),
       ("1", [some "test2", some "5", some "test2"]),
       ("2", [some "test4", some "7", some "test4"])]⟩
    ⟨["test", "foo", "UNIQUE_KEY"],
      [("1_3", [some "test1", some "1", some "test1"]),
       ("2_3", [some "test2", some "2", some "test2"]),
       ("3_5", [some "test3", some "9", some "test3"])]⟩
    ⟨["test", "foo"], [("0", [some "test4", some "7"])]⟩
    ⟨["test", "foo", "UNIQUE_KEY"],
      [("0", [some "test1", some "1", some "test1"]),
       ("1", [some "test2", some "5", some "test2"]),
       ("2", [some "test4", some "7", some "test4"])]⟩
    ⟨["test", "foo", "UNIQUE_KEY"],
      [("1_3", [some "test1", some "1", some "test1"]),
       ("2_3", [some "test2", some "2", some "test2"]),
       ("3_5", [some "test3", some "9", some "test3"])]⟩
    ⟨["test", "foo", "ROW_ID", "ROW_VERSION"],
      [("0", [some "test2", some "5", some "2", some "3"])]⟩
    ⟨["test", "foo", "UNIQUE_KEY"],
      [("0", [some "test1", some "1", some "test1"]),
       ("1", [some "test2", some "5", some "test2"]),
       ("2", [some "test4", some "7", some "test4"])]⟩
    ⟨["test", "foo", "UNIQUE_KEY"],
      [("1_3", [some "test1", some "1", some "test1"]),
       ("2_3", [some "test2", some "2", some "test2"]),
       ("3_5", [some "test3", some "9", some "test3"])]⟩
    [("3", "5")]
    ["ROW_ID", "ROW_VERSION", "test", "foo"]
    [.write [none, none, some "test4", some "7"],
     .write [some "2", some "3", some "test2", some "5"],
     .del "3" "5"]
    (by rfl) (by rfl) (by rfl) (by rfl) (by rfl) (by rfl) (by rfl)

theorem drop_last_two {α : Type} (xs : List α) (a b : α) :
    (xs ++ [a, b]).drop ((xs ++ [a, b]).length - 2) = [a, b] := by
  have hl : (xs ++ [a, b]).length - 2 = xs.length := by simp
  rw [hl, List.drop_left]

theorem map_snd_zip_of_length_eq {α β γ : Type} (f : β → γ) :
    ∀ (a : List α) (b : List β), a.length = b.length →
      (a.zip b).map (fun q => f q.2) = b.map f := by
  intro a
  induction a with
  | nil =>
    intro b h
    rw [List.length_nil] at h
    rw [(List.length_eq_zero).mp h.symm]
    rfl
  | cons x a' ih =>
    intro b h
    cases b with
    | nil => exact absurd h (by simp)
    | cons y b' =>
      simp only [List.zip_cons_cons, List.map_cons]
      rw [ih b' (by simpa using h)]

/-- Rows of the update output project, on their last two cells, to the
attached identity pairs. -/
theorem out_rows_identity (cbi : Nat) (tu : List (String × List Cell))
    (pairs : List (String × String)) (hlen : pairs.length = tu.length) :
    (((tu.zip pairs).enum).map (fun p => (toString p.1,
        p.2.1.2.eraseIdx cbi ++ [some p.2.2.1, some p.2.2.2]))).map
      (fun lr => lr.2.drop (lr.2.length - 2)) =
    pairs.map (fun p => [some p.1, some p.2]) := by
  rw [List.map_map]
  rw [List.map_congr_left (fun p _ =>
    drop_last_two (p.2.1.2.eraseIdx cbi) (some p.2.2.1) (some p.2.2.2))]
  have h1 : (fun p : Nat × ((String × List Cell) × String × String) =>
      [some p.2.2.1, some p.2.2.2]) =
      (fun q : (String × List Cell) × String × String =>
        [some q.2.1, some q.2.2]) ∘ Prod.snd := rfl
  rw [h1, ← List.map_map, List.enum_map_snd]
  exact map_snd_zip_of_length_eq (fun pr => [some pr.1, some pr.2]) tu pairs
    hlen.symm

/-- Claim C1 (confirmed).  Identity preservation in `_update_rows`: the
`ROW_ID`/`ROW_VERSION` cells attached to the output rows are exactly the
split locators of the matched store subset's original, pre-reindex index
labels (`rowids = updating_databasedf.index.values`, captured at line 459
before the index is reassigned to the key column), selected positionally by
the differing-row mask — never identities read off the reindexed or
realigned frames.  The hypotheses name the intermediate frames exactly as
`_update_rows` computes them; the conclusion says the last two columns of
the output are `ROW_ID, ROW_VERSION` and that, row for row, their cells are
the first two underscore components of the positionally masked original
store locators. -/
theorem claim_C1 (new db : DF) (cb : String) (n' d' out : DF)
    (mnew mstore aligned : DF)
    (hmn : getLeftUnionDf new.fillna db.fillna cb = .ok mnew)
    (hms : getLeftUnionDf db.fillna new.fillna cb = .ok mstore)
    (hal : locReindex
        ((mnew.setIndexToCol ((new.fillna.colIdx cb).getD 0)).dropDupIndex)
        ((mstore.setIndexToCol ((db.fillna.colIdx cb).getD 0)).rows.map
          (fun lr => lr.1)) = .ok aligned)
    (h : updateRows new db cb = .ok (n', d', out))
    (hne : out.rows ≠ []) :
    ∃ pairs,
      attachIdentity (mstore.rows.map (fun lr => lr.1))
        ((aligned.rows.zip
            (mstore.setIndexToCol ((db.fillna.colIdx cb).getD 0)).rows).map
          (fun p => rowNe p.1.2 p.2.2)) = .ok pairs ∧
      out.cols.drop (out.cols.length - 2) = ["ROW_ID", "ROW_VERSION"] ∧
      out.rows.map (fun lr => lr.2.drop (lr.2.length - 2)) =
        pairs.map (fun p => [some p.1, some p.2]) := by
  unfold updateRows at h
  simp only [bind, Except.bind] at h
  rw [hmn, hms] at h
  dsimp only at h
  rw [hal] at h
  dsimp only at h
  split at h
  · exact Except.noConfusion h
  · split at h
    · split at h
      · exact Except.noConfusion h
      · split at h
        · exact Except.noConfusion h
        · rename_i pairs heqp
          split at h
          · exact Except.noConfusion h
          · rename_i hlen
            injection h with h1
            have hout := congrArg (fun t : DF × DF × DF => t.2.2) h1
            simp only at hout
            rw [ne_eq, not_not] at hlen
            refine ⟨pairs, heqp, ?_, ?_⟩
            · rw [← hout]
              exact drop_last_two _ _ _
            · rw [← hout]
              exact out_rows_identity _ _ pairs hlen
    · injection h with h1
      have hout := congrArg (fun t : DF × DF × DF => t.2.2.rows) h1
      simp only at hout
      exact absurd hout.symm hne

/-- Store frame for the C1 witness scenario (locators `1_3`, `2_3`). -/
def dbC1 : DF :=
  ⟨["test", "foo"],
   [("1_3", [some "test1", some "1"]), ("2_3", [some "test2", some "2"])]⟩

/-- New-dataset frame for the C1 witness scenario (`test2` changed). -/
def newC1 : DF :=
  ⟨["test", "foo"],
   [("0", [some "test1", some "1"]), ("1", [some "test2", some "5"])]⟩

/-- Realigned new-subset frame of the C1 witness scenario. -/
def alignedC1 : DF :=
  ⟨["test", "foo"],
   [("test1", [some "test1", some "1"]), ("test2", [some "test2", some "5"])]⟩

/-- Update output of the C1 witness scenario: the changed `test2` row with
identity `(2, 3)` taken from the original locator `2_3`. -/
def outC1 : DF :=
  ⟨["foo", "ROW_ID", "ROW_VERSION"], [("0", [some "5", some "2", some "3"])]⟩

/-- Witness for C1: in the concrete scenario the single differing row
(`test2`) carries identity `("2", "3")`, split from the matched store's
original second locator `2_3` by mask position. -/
theorem claim_C1_witness :
    ∃ pairs,
      attachIdentity (dbC1.rows.map (fun lr => lr.1))
        ((alignedC1.rows.zip
            (dbC1.setIndexToCol ((dbC1.fillna.colIdx "test").getD 0)).rows).map
          (fun p => rowNe p.1.2 p.2.2)) = .ok pairs ∧
      outC1.cols.drop (outC1.cols.length - 2) = ["ROW_ID", "ROW_VERSION"] ∧
      outC1.rows.map (fun lr => lr.2.drop (lr.2.length - 2)) =
        pairs.map (fun p => [some p.1, some p.2]) :=
  claim_C1 newC1 dbC1 "test" newC1 dbC1 outC1 newC1 dbC1 alignedC1
    (by rfl) (by rfl) (by rfl) (by rfl) (by decide)

/-! Helper lemmas for the idempotence analysis (claim C2). -/

/-- The composite key value built for a row by `updateDatabase`'s
`UNIQUE_KEY` construction: the space-join of the string-coerced key-column
cells. -/
def keyOf (cols uk : List String) (r : List Cell) : String :=
  " ".intercalate ((uk.map (fun c => rowGet r ((colIdxL cols c).getD 0))).map
    (fun v => v.getD ""))

theorem map_eq_self_of {α : Type} (l : List α) (f : α → α)
    (h : ∀ a ∈ l, f a = a) : l.map f = l :=
  (List.map_congr_left h).trans (List.map_id' l)

theorem fillna_eq_self (df : DF)
    (h : ∀ lr ∈ df.rows, ∀ v ∈ lr.2, v.isSome = true) : df.fillna = df := by
  unfold DF.fillna
  cases df with
  | mk cols rows =>
    simp only [DF.mk.injEq, true_and]
    apply map_eq_self_of
    intro lr hlr
    have hrow : lr.2.map fillCell = lr.2 := by
      apply map_eq_self_of
      intro v hv
      have := h lr hlr v hv
      cases v with
      | none => exact Bool.noConfusion this
      | some s => rfl
    rw [hrow]

theorem fillna_rows_allSome (df : DF) :
    ∀ lr ∈ df.fillna.rows, ∀ v ∈ lr.2, v.isSome = true := by
  intro lr hlr v hv
  unfold DF.fillna at hlr
  simp only [List.mem_map] at hlr
  obtain ⟨lr0, _, hlr0⟩ := hlr
  rw [← hlr0] at hv
  simp only [List.mem_map] at hv
  obtain ⟨v0, _, hv0⟩ := hv
  rw [← hv0]
  rfl

theorem colIdxL_isSome_of_mem (cols : List String) (c : String)
    (h : c ∈ cols) : (colIdxL cols c).isSome = true := by
  cases hidx : colIdxL cols c with
  | none => exact absurd h ((colIdxL_eq_none_iff cols c).mp hidx)
  | some i => rfl

theorem colIdxL_getElem_self (cols : List String) (hnd : cols.Nodup) :
    ∀ (j : Nat) (hj : j < cols.length), colIdxL cols (cols.get ⟨j, hj⟩) = some j := by
  induction cols with
  | nil => intro j hj; exact absurd hj (by simp)
  | cons c0 rest ih =>
    intro j hj
    cases j with
    | zero => simp [colIdxL]
    | succ j' =>
      have hj' : j' < rest.length := Nat.lt_of_succ_lt_succ hj
      have hmem : rest.get ⟨j', hj'⟩ ∈ rest := List.get_mem rest j' hj'
      have hne : c0 ≠ rest.get ⟨j', hj'⟩ := by
        intro hh
        exact (List.nodup_cons.mp hnd).1 (hh ▸ hmem)
      unfold colIdxL
      rw [List.get_cons_succ, if_neg hne, ih (List.nodup_cons.mp hnd).2 j' hj']
      rfl

theorem selectCols_self (cols : List String)
    (rows : List (String × List Cell)) (hnd : cols.Nodup)
    (hwf : ∀ lr ∈ rows, lr.2.length = cols.length) :
    DF.selectCols ⟨cols, rows⟩ cols = .ok ⟨cols, rows⟩ := by
  unfold DF.selectCols
  rw [if_pos]
  · congr 1
    simp only [DF.mk.injEq, true_and]
    apply map_eq_self_of
    intro lr hlr
    have hlen := hwf lr hlr
    have : cols.map (fun c =>
        rowGet lr.2 (((⟨cols, rows⟩ : DF).colIdx c).getD 0)) = lr.2 := by
      apply List.ext_get
      · simp [hlen]
      · intro j h1 h2
        rw [List.get_map]
        show rowGet lr.2 ((colIdxL cols (cols.get ⟨j, _⟩)).getD 0) = _
        rw [colIdxL_getElem_self cols hnd j (by simpa using h1)]
        unfold rowGet
        rw [List.getD_eq_getElem?_getD]
        simp only [Option.getD_some]
        rw [List.getElem?_eq_getElem h2]
        simp [List.get_eq_getElem]
    rw [this]
  · rw [List.all_eq_true]
    intro c hc
    exact colIdxL_isSome_of_mem cols c hc

theorem colIdxL_append_right (cols : List String) (cb : String)
    (h : colIdxL cols cb = none) :
    colIdxL (cols ++ [cb]) cb = some cols.length := by
  induction cols with
  | nil => simp [colIdxL]
  | cons c0 rest ih =>
    rw [colIdxL_eq_none_iff] at h
    have hc : c0 ≠ cb := fun hh => h (by rw [hh]; exact List.mem_cons_self _ _)
    have hrest : colIdxL rest cb = none :=
      (colIdxL_eq_none_iff rest cb).mpr (fun hm => h (List.mem_cons_of_mem _ hm))
    show (if c0 = cb then some 0 else (colIdxL (rest ++ [cb]) cb).map (· + 1)) =
      some (c0 :: rest).length
    rw [if_neg hc, ih hrest]
    rfl

theorem eraseIdx_append_length {α : Type} (l : List α) (a : α) :
    (l ++ [a]).eraseIdx l.length = l := by
  induction l with
  | nil => rfl
  | cons x rest ih =>
    simp only [List.cons_append, List.length_cons, List.eraseIdx_cons_succ]
    rw [ih]

theorem rowGet_append_length (r : List Cell) (v : Cell) (n : Nat)
    (h : r.length = n) : rowGet (r ++ [v]) n = v := by
  unfold rowGet
  rw [← h, List.getD_eq_getElem?_getD, List.getElem?_append_right (by omega)]
  simp

theorem buildUniqueKey_ok (cols : List String)
    (rows : List (String × List Cell)) (uk : List String) (cb : String)
    (huk : uk.all (fun c => (colIdxL cols c).isSome) = true)
    (hcb : colIdxL cols cb = none) :
    buildUniqueKey ⟨cols, rows⟩ uk cb =
      .ok ⟨cols ++ [cb],
        rows.map (fun lr => (lr.1, lr.2 ++ [some (keyOf cols uk lr.2)]))⟩ := by
  unfold buildUniqueKey DF.selectCols
  simp only [DF.colIdx]
  rw [if_pos huk]
  simp only [bind, Except.bind]
  unfold DF.setCol
  simp only [DF.colIdx]
  rw [hcb]
  congr 1
  simp only [DF.mk.injEq, true_and]
  rw [List.map_map]
  have hkey : ((fun lr : String × List Cell =>
      some (" ".intercalate (lr.2.map (fun v => v.getD "")))) ∘
      (fun lr : String × List Cell => (lr.1,
        uk.map (fun c => rowGet lr.2 ((colIdxL cols c).getD 0))))) =
      fun lr => some (keyOf cols uk lr.2) := by
    funext lr
    rfl
  rw [hkey]
  have hz := List.zip_map' (fun lr : String × List Cell => lr)
    (fun lr : String × List Cell => some (keyOf cols uk lr.2)) rows
  rw [List.map_id'] at hz
  rw [hz, List.map_map]
  rfl

theorem dedupByLabel_of_nodup :
    ∀ (rows : List (String × List Cell)),
      (rows.map (fun lr => lr.1)).Nodup → dedupByLabel rows = rows := by
  intro rows
  induction rows with
  | nil => intro _; rfl
  | cons lr rest ih =>
    intro h
    rw [List.map_cons, List.nodup_cons] at h
    unfold dedupByLabel
    rw [ih h.2]
    congr 1
    apply List.filter_eq_self.mpr
    intro x hx
    simp only [Bool.not_eq_true', decide_eq_false_iff_not]
    intro hh
    exact h.1 (hh ▸ List.mem_map_of_mem (fun lr => lr.1) hx)

theorem find?_label_self :
    ∀ (pre rows : List (String × List Cell)) (x : String × List Cell),
      (∀ p ∈ pre, p.1 ≠ x.1) → x ∈ rows →
      (∀ y ∈ rows, ∀ z ∈ rows, y.1 = z.1 → y = z) →
      List.find? (fun lr => lr.1 = x.1) (pre ++ rows) = some x := by
  intro pre rows x hpre hx huniq
  induction pre with
  | nil =>
    simp only [List.nil_append]
    induction rows with
    | nil => cases hx
    | cons y rest ih =>
      rcases List.mem_cons.mp hx with h' | h'
      · rw [← h']
        simp [List.find?]
      · by_cases hy : y.1 = x.1
        · have : y = x := huniq y (List.mem_cons_self _ _) x hx hy
          rw [this]
          simp [List.find?]
        · rw [List.find?_cons_of_neg _ (by simpa using hy)]
          exact ih h' (fun a ha b hb => huniq a (List.mem_cons_of_mem _ ha)
            b (List.mem_cons_of_mem _ hb))
  | cons p pre' ih =>
    rw [List.cons_append,
      List.find?_cons_of_neg _ (by simpa using hpre p (List.mem_cons_self _ _))]
    exact ih (fun q hq => hpre q (List.mem_cons_of_mem _ hq))

theorem mapM_locFind (cols : List String)
    (all : List (String × List Cell))
    (huniq : ∀ y ∈ all, ∀ z ∈ all, y.1 = z.1 → y = z) :
    ∀ (rows : List (String × List Cell)), (∀ x ∈ rows, x ∈ all) →
      List.mapM (fun l => (locFind ⟨cols, all⟩ l).map (fun r => (l, r)))
        (rows.map (fun lr => lr.1)) = .ok rows := by
  intro rows hsub
  induction rows with
  | nil => rfl
  | cons x rest ih =>
    rw [List.map_cons, List.mapM_cons]
    have hfind : locFind ⟨cols, all⟩ x.1 = .ok x.2 := by
      unfold locFind
      have := find?_label_self [] all x (by simp)
        (hsub x (List.mem_cons_self _ _)) huniq
      rw [List.nil_append] at this
      rw [this]
    rw [hfind]
    have hrest := ih (fun q hq => hsub q (List.mem_cons_of_mem _ hq))
    simp only [Except.map, bind, Except.bind, pure, Except.pure]
    simp only [Except.map] at hrest
    rw [hrest]

theorem locReindex_self (cols : List String)
    (rows : List (String × List Cell))
    (hnd : (rows.map (fun lr => lr.1)).Nodup) :
    locReindex ⟨cols, rows⟩ (rows.map (fun lr => lr.1)) = .ok ⟨cols, rows⟩ := by
  have huniq : ∀ y ∈ rows, ∀ z ∈ rows, y.1 = z.1 → y = z := by
    intro y hy z hz hyz
    exact List.inj_on_of_nodup_map hnd hy hz hyz
  unfold locReindex
  simp only [bind, Except.bind]
  rw [mapM_locFind cols rows huniq rows (fun x hx => hx)]

theorem map_snd_eq_of {β : Type} (f : List Cell → β)
    (a b : List (String × List Cell))
    (h : a.map (fun lr => lr.2) = b.map (fun lr => lr.2)) :
    a.map (fun lr => f lr.2) = b.map (fun lr => f lr.2) := by
  have ha : a.map (fun lr => f lr.2) = (a.map (fun lr => lr.2)).map f := by
    rw [List.map_map]
    rfl
  have hb : b.map (fun lr => f lr.2) = (b.map (fun lr => lr.2)).map f := by
    rw [List.map_map]
    rfl
  rw [ha, hb, h]

theorem rowNe_mask_false :
    ∀ (a b : List (String × List Cell)),
      a.map (fun lr => lr.2) = b.map (fun lr => lr.2) →
      ((a.zip b).map (fun p => rowNe p.1.2 p.2.2)).any id = false := by
  intro a
  induction a with
  | nil => intro b _; rfl
  | cons x a' ih =>
    intro b h
    cases b with
    | nil => rfl
    | cons y b' =>
      simp only [List.map_cons, List.cons.injEq] at h
      simp only [List.zip_cons_cons, List.map_cons, List.any_cons]
      rw [ih b' h.2]
      unfold rowNe
      rw [h.1]
      simp

/-- The key cells sitting in the appended `UNIQUE_KEY` column. -/
theorem keycell_list (cols : List String) (cb : String)
    (k : List Cell → String) (f : List (String × List Cell))
    (hwf : ∀ lr ∈ f, lr.2.length = cols.length) :
    (f.map (fun lr => (lr.1, lr.2 ++ [some (k lr.2)]))).map
        (fun lr => rowGet lr.2 cols.length) =
      f.map (fun lr => some (k lr.2)) := by
  rw [List.map_map]
  apply List.map_congr_left
  intro lr hlr
  simp only [Function.comp]
  exact rowGet_append_length lr.2 (some (k lr.2)) cols.length (hwf lr hlr)

theorem allSome_keyrows (k : List Cell → String)
    (f : List (String × List Cell))
    (hs : ∀ lr ∈ f, ∀ v ∈ lr.2, v.isSome = true) :
    ∀ lr ∈ f.map (fun lr => (lr.1, lr.2 ++ [some (k lr.2)])),
      ∀ v ∈ lr.2, v.isSome = true := by
  intro lr hlr v hv
  obtain ⟨lr0, hlr0, heq⟩ := List.mem_map.mp hlr
  rw [← heq] at hv
  simp only [List.mem_append, List.mem_singleton] at hv
  rcases hv with h' | h'
  · exact hs lr0 hlr0 v h'
  · rw [h']; rfl

theorem keycell_mem (cols : List String) (k : List Cell → String)
    (fN fD : List (String × List Cell))
    (hvals : fN.map (fun lr => lr.2) = fD.map (fun lr => lr.2))
    (hwfN : ∀ lr ∈ fN, lr.2.length = cols.length)
    (hwfD : ∀ lr ∈ fD, lr.2.length = cols.length) :
    ∀ lr ∈ fN.map (fun lr => (lr.1, lr.2 ++ [some (k lr.2)])),
      rowGet lr.2 cols.length ∈
        (fD.map (fun lr => (lr.1, lr.2 ++ [some (k lr.2)]))).map
          (fun x => rowGet x.2 cols.length) := by
  intro lr hlr
  obtain ⟨lr0, hlr0, heq⟩ := List.mem_map.mp hlr
  rw [← heq]
  simp only
  rw [rowGet_append_length lr0.2 (some (k lr0.2)) cols.length (hwfN lr0 hlr0)]
  rw [keycell_list cols "" k fD hwfD]
  rw [← map_snd_eq_of (fun r => some (k r)) fN fD hvals]
  exact List.mem_map_of_mem _ hlr0

theorem c2_append (cols : List String) (cb : String) (k : List Cell → String)
    (fN fD : List (String × List Cell))
    (hcb : colIdxL cols cb = none)
    (hvals : fN.map (fun lr => lr.2) = fD.map (fun lr => lr.2))
    (hwfN : ∀ lr ∈ fN, lr.2.length = cols.length)
    (hwfD : ∀ lr ∈ fD, lr.2.length = cols.length)
    (hsN : ∀ lr ∈ fN, ∀ v ∈ lr.2, v.isSome = true)
    (hsD : ∀ lr ∈ fD, ∀ v ∈ lr.2, v.isSome = true) :
    appendRows
        ⟨cols ++ [cb], fN.map (fun lr => (lr.1, lr.2 ++ [some (k lr.2)]))⟩
        ⟨cols ++ [cb], fD.map (fun lr => (lr.1, lr.2 ++ [some (k lr.2)]))⟩
        cb =
      .ok (⟨cols ++ [cb], fN.map (fun lr => (lr.1, lr.2 ++ [some (k lr.2)]))⟩,
           ⟨cols ++ [cb], fD.map (fun lr => (lr.1, lr.2 ++ [some (k lr.2)]))⟩,
           ⟨cols, []⟩) := by
  have hL := colIdxL_append_right cols cb hcb
  unfold appendRows
  rw [fillna_eq_self _ (allSome_keyrows k fD hsD),
    fillna_eq_self _ (allSome_keyrows k fN hsN)]
  unfold getLeftDiffDf checkValidDf
  simp only [DF.colIdx, hL, Option.isSome_some, if_true, Option.getD_some,
    bind, Except.bind]
  have hfilter : List.filter (fun lr =>
      !(((fD.map (fun lr => (lr.1, lr.2 ++ [some (k lr.2)]))).map
        (fun lr => rowGet lr.2 cols.length)).contains (rowGet lr.2 cols.length)))
      (fN.map (fun lr => (lr.1, lr.2 ++ [some (k lr.2)]))) = [] := by
    rw [List.filter_eq_nil]
    intro lr hlr
    have hmem := keycell_mem cols k fN fD hvals hwfN hwfD lr hlr
    simp only [List.map_map, List.mem_map, Function.comp] at hmem
    obtain ⟨x, hx, hxeq⟩ := hmem
    simp
    exact ⟨x.1, x.2, hx, hxeq⟩
  rw [hfilter]
  unfold DF.dropCol
  simp only [DF.colIdx, hL]
  rw [eraseIdx_append_length]
  rfl

theorem c2_delete (cols : List String) (cb : String) (k : List Cell → String)
    (fN fD : List (String × List Cell))
    (hcb : colIdxL cols cb = none)
    (hvals : fN.map (fun lr => lr.2) = fD.map (fun lr => lr.2))
    (hwfN : ∀ lr ∈ fN, lr.2.length = cols.length)
    (hwfD : ∀ lr ∈ fD, lr.2.length = cols.length)
    (hsN : ∀ lr ∈ fN, ∀ v ∈ lr.2, v.isSome = true)
    (hsD : ∀ lr ∈ fD, ∀ v ∈ lr.2, v.isSome = true) :
    deleteRows
        ⟨cols ++ [cb], fN.map (fun lr => (lr.1, lr.2 ++ [some (k lr.2)]))⟩
        ⟨cols ++ [cb], fD.map (fun lr => (lr.1, lr.2 ++ [some (k lr.2)]))⟩
        cb =
      .ok (⟨cols ++ [cb], fN.map (fun lr => (lr.1, lr.2 ++ [some (k lr.2)]))⟩,
           ⟨cols ++ [cb], fD.map (fun lr => (lr.1, lr.2 ++ [some (k lr.2)]))⟩,
           []) := by
  have hL := colIdxL_append_right cols cb hcb
  unfold deleteRows
  rw [fillna_eq_self _ (allSome_keyrows k fD hsD),
    fillna_eq_self _ (allSome_keyrows k fN hsN)]
  unfold getLeftDiffDf checkValidDf
  simp only [DF.colIdx, hL, Option.isSome_some, if_true, Option.getD_some,
    bind, Except.bind]
  have hfilter : List.filter (fun lr =>
      !(((fN.map (fun lr => (lr.1, lr.2 ++ [some (k lr.2)]))).map
        (fun lr => rowGet lr.2 cols.length)).contains (rowGet lr.2 cols.length)))
      (fD.map (fun lr => (lr.1, lr.2 ++ [some (k lr.2)]))) = [] := by
    rw [List.filter_eq_nil]
    intro lr hlr
    have hmem := keycell_mem cols k fD fN hvals.symm hwfD hwfN lr hlr
    simp only [List.map_map, List.mem_map, Function.comp] at hmem
    obtain ⟨x, hx, hxeq⟩ := hmem
    simp
    exact ⟨x.1, x.2, hx, hxeq⟩
  rw [hfilter]
  rfl

theorem c2_update (cols : List String) (cb : String) (k : List Cell → String)
    (fN fD : List (String × List Cell))
    (hcb : colIdxL cols cb = none)
    (hvals : fN.map (fun lr => lr.2) = fD.map (fun lr => lr.2))
    (hwfN : ∀ lr ∈ fN, lr.2.length = cols.length)
    (hwfD : ∀ lr ∈ fD, lr.2.length = cols.length)
    (hsN : ∀ lr ∈ fN, ∀ v ∈ lr.2, v.isSome = true)
    (hsD : ∀ lr ∈ fD, ∀ v ∈ lr.2, v.isSome = true)
    (hkeys : (fD.map (fun lr => k lr.2)).Nodup) :
    updateRows
        ⟨cols ++ [cb], fN.map (fun lr => (lr.1, lr.2 ++ [some (k lr.2)]))⟩
        ⟨cols ++ [cb], fD.map (fun lr => (lr.1, lr.2 ++ [some (k lr.2)]))⟩
        cb =
      .ok (⟨cols ++ [cb], fN.map (fun lr => (lr.1, lr.2 ++ [some (k lr.2)]))⟩,
           ⟨cols ++ [cb], fD.map (fun lr => (lr.1, lr.2 ++ [some (k lr.2)]))⟩,
           ⟨[], []⟩) := by
  have hL := colIdxL_append_right cols cb hcb
  have hkeyN : fN.map (fun lr => k lr.2) = fD.map (fun lr => k lr.2) :=
    map_snd_eq_of k fN fD hvals
  unfold updateRows
  rw [fillna_eq_self _ (allSome_keyrows k fD hsD),
    fillna_eq_self _ (allSome_keyrows k fN hsN)]
  unfold getLeftUnionDf checkValidDf
  simp only [DF.colIdx, hL, Option.isSome_some, if_true, Option.getD_some,
    bind, Except.bind]
  have hfN : List.filter (fun lr =>
      ((fD.map (fun lr => (lr.1, lr.2 ++ [some (k lr.2)]))).map
        (fun lr => rowGet lr.2 cols.length)).contains (rowGet lr.2 cols.length))
      (fN.map (fun lr => (lr.1, lr.2 ++ [some (k lr.2)]))) =
      fN.map (fun lr => (lr.1, lr.2 ++ [some (k lr.2)])) := by
    rw [List.filter_eq_self]
    intro lr hlr
    have hmem := keycell_mem cols k fN fD hvals hwfN hwfD lr hlr
    simp only [List.map_map, List.mem_map, Function.comp] at hmem
    obtain ⟨x, hx, hxeq⟩ := hmem
    simp
    exact ⟨x.1, x.2, hx, hxeq⟩
  have hfD : List.filter (fun lr =>
      ((fN.map (fun lr => (lr.1, lr.2 ++ [some (k lr.2)]))).map
        (fun lr => rowGet lr.2 cols.length)).contains (rowGet lr.2 cols.length))
      (fD.map (fun lr => (lr.1, lr.2 ++ [some (k lr.2)]))) =
      fD.map (fun lr => (lr.1, lr.2 ++ [some (k lr.2)])) := by
    rw [List.filter_eq_self]
    intro lr hlr
    have hmem := keycell_mem cols k fD fN hvals.symm hwfD hwfN lr hlr
    simp only [List.map_map, List.mem_map, Function.comp] at hmem
    obtain ⟨x, hx, hxeq⟩ := hmem
    simp
    exact ⟨x.1, x.2, hx, hxeq⟩
  rw [hfN, hfD]
  unfold DF.setIndexToCol DF.dropDupIndex
  simp only
  have hsetN : (fN.map (fun lr => (lr.1, lr.2 ++ [some (k lr.2)]))).map
      (fun lr => ((rowGet lr.2 cols.length).getD "", lr.2)) =
      fN.map (fun lr => (k lr.2, lr.2 ++ [some (k lr.2)])) := by
    rw [List.map_map]
    apply List.map_congr_left
    intro lr hlr
    simp only [Function.comp]
    rw [rowGet_append_length lr.2 (some (k lr.2)) cols.length (hwfN lr hlr)]
    rfl
  have hsetD : (fD.map (fun lr => (lr.1, lr.2 ++ [some (k lr.2)]))).map
      (fun lr => ((rowGet lr.2 cols.length).getD "", lr.2)) =
      fD.map (fun lr => (k lr.2, lr.2 ++ [some (k lr.2)])) := by
    rw [List.map_map]
    apply List.map_congr_left
    intro lr hlr
    simp only [Function.comp]
    rw [rowGet_append_length lr.2 (some (k lr.2)) cols.length (hwfD lr hlr)]
    rfl
  rw [hsetN, hsetD]
  have hlabN : (fN.map (fun lr => (k lr.2, lr.2 ++ [some (k lr.2)]))).map
      (fun lr => lr.1) = fN.map (fun lr => k lr.2) := by
    rw [List.map_map]
    rfl
  have hlabD : (fD.map (fun lr => (k lr.2, lr.2 ++ [some (k lr.2)]))).map
      (fun lr => lr.1) = fD.map (fun lr => k lr.2) := by
    rw [List.map_map]
    rfl
  have hnodN : ((fN.map (fun lr => (k lr.2, lr.2 ++ [some (k lr.2)]))).map
      (fun lr => lr.1)).Nodup := by
    rw [hlabN, hkeyN]
    exact hkeys
  have hded := dedupByLabel_of_nodup
    (fN.map (fun lr => (k lr.2, lr.2 ++ [some (k lr.2)]))) hnodN
  rw [hded]
  have hlabDN : (fD.map (fun lr => (k lr.2, lr.2 ++ [some (k lr.2)]))).map
      (fun lr => lr.1) =
      (fN.map (fun lr => (k lr.2, lr.2 ++ [some (k lr.2)]))).map
        (fun lr => lr.1) := by
    rw [hlabN, hlabD, hkeyN]
  rw [hlabDN]
  rw [locReindex_self (cols ++ [cb])
    (fN.map (fun lr => (k lr.2, lr.2 ++ [some (k lr.2)]))) hnodN]
  simp only [bind, Except.bind, ne_eq, not_true_eq_false, if_false]
  have hmask := rowNe_mask_false
    (fN.map (fun lr => (k lr.2, lr.2 ++ [some (k lr.2)])))
    (fD.map (fun lr => (k lr.2, lr.2 ++ [some (k lr.2)])))
    (by
      rw [List.map_map, List.map_map]
      exact map_snd_eq_of (fun r => r ++ [some (k r)]) fN fD hvals)
  rw [hmask]
  simp

/-- Counterexample to claim C2 as stated.  Idempotence fails when the store
contains duplicate keys with differing content: feeding the store's own
contents back (identity stripped) produces a non-empty update set.  Store:
two rows with key `k` (locators `1_1`, `2_1`) and different `bar` values;
the duplicate-collapse step aligns both store rows against the first
occurrence, so the second row appears "changed" and a spurious update row —
the first row's values attached to the second row's identity `(2, 1)` — is
emitted instead of the empty batch the claim requires. -/
theorem claim_C2_counterexample :
    updateDatabase
        ⟨["foo", "bar"],
          [("1_1", [some "k", some "a"]), ("2_1", [some "k", some "b"])]⟩
        ⟨["foo", "bar"],
          [("0", [some "k", some "a"]), ("1", [some "k", some "b"])]⟩
        ["foo"] true =
      .ok (["ROW_ID", "ROW_VERSION", "foo", "bar"],
        [.write [some "2", some "1", some "k", some "a"]]) ∧
    ([.write [some "2", some "1", some "k", some "a"]] : List BatchEntry) ≠
      [] := by
  constructor
  · rfl
  · decide

/-- Claim C2 (corrected).  Idempotence holds provided the store's composite
key values are pairwise distinct: for any store whose rows have well-formed
widths and whose built `UNIQUE_KEY` values (computed on the
`fillna`-normalized rows) contain no duplicates, feeding the store's own
row contents back as the new dataset (same columns, any index labels, i.e.
identity stripped) yields an empty write-batch — no appends, no updates,
and no deletes, with or without deletion enabled. -/
theorem claim_C2_amended (cols : List String)
    (dbRows newRows : List (String × List Cell)) (uk : List String)
    (td : Bool) (hnd : cols.Nodup)
    (hcb : colIdxL cols "UNIQUE_KEY" = none)
    (huk : uk.all (fun c => (colIdxL cols c).isSome) = true)
    (hwf : ∀ lr ∈ dbRows, lr.2.length = cols.length)
    (hcontent : newRows.map (fun lr => lr.2) = dbRows.map (fun lr => lr.2))
    (hkeys : (dbRows.map (fun lr =>
        keyOf cols uk (lr.2.map fillCell))).Nodup) :
    updateDatabase ⟨cols, dbRows⟩ ⟨cols, newRows⟩ uk td =
      .ok ("ROW_ID" :: "ROW_VERSION" :: cols, []) := by
  have hwfN : ∀ lr ∈ newRows, lr.2.length = cols.length := by
    intro lr hlr
    have h2 : lr.2 ∈ newRows.map (fun lr => lr.2) := List.mem_map_of_mem _ hlr
    rw [hcontent] at h2
    obtain ⟨lr', hlr', heq⟩ := List.mem_map.mp h2
    rw [← heq]
    exact hwf lr' hlr'
  have hwfFN : ∀ lr ∈ newRows.map (fun lr => (lr.1, lr.2.map fillCell)),
      lr.2.length = cols.length := by
    intro lr hlr
    obtain ⟨lr0, h0, heq⟩ := List.mem_map.mp hlr
    rw [← heq]
    simp [hwfN lr0 h0]
  have hwfFD : ∀ lr ∈ dbRows.map (fun lr => (lr.1, lr.2.map fillCell)),
      lr.2.length = cols.length := by
    intro lr hlr
    obtain ⟨lr0, h0, heq⟩ := List.mem_map.mp hlr
    rw [← heq]
    simp [hwf lr0 h0]
  have hsFN : ∀ lr ∈ newRows.map (fun lr => (lr.1, lr.2.map fillCell)),
      ∀ v ∈ lr.2, v.isSome = true :=
    fillna_rows_allSome ⟨cols, newRows⟩
  have hsFD : ∀ lr ∈ dbRows.map (fun lr => (lr.1, lr.2.map fillCell)),
      ∀ v ∈ lr.2, v.isSome = true :=
    fillna_rows_allSome ⟨cols, dbRows⟩
  have hvalsF : (newRows.map (fun lr => (lr.1, lr.2.map fillCell))).map
      (fun lr => lr.2) =
      (dbRows.map (fun lr => (lr.1, lr.2.map fillCell))).map
        (fun lr => lr.2) := by
    rw [List.map_map, List.map_map]
    exact map_snd_eq_of (fun r => r.map fillCell) newRows dbRows hcontent
  have hkeysF : ((dbRows.map (fun lr => (lr.1, lr.2.map fillCell))).map
      (fun lr => keyOf cols uk lr.2)).Nodup := by
    have heq : (dbRows.map (fun lr => (lr.1, lr.2.map fillCell))).map
        (fun lr => keyOf cols uk lr.2) =
        dbRows.map (fun lr => keyOf cols uk (lr.2.map fillCell)) := by
      rw [List.map_map]
      rfl
    rw [heq]
    exact hkeys
  unfold updateDatabase
  simp only [bind, Except.bind]
  rw [show (⟨cols, newRows⟩ : DF).fillna =
      ⟨cols, newRows.map (fun lr => (lr.1, lr.2.map fillCell))⟩ from rfl,
    show (⟨cols, dbRows⟩ : DF).fillna =
      ⟨cols, dbRows.map (fun lr => (lr.1, lr.2.map fillCell))⟩ from rfl]
  dsimp only
  rw [selectCols_self cols (newRows.map (fun lr => (lr.1, lr.2.map fillCell)))
    hnd hwfFN]
  dsimp only
  rw [buildUniqueKey_ok cols (dbRows.map (fun lr => (lr.1, lr.2.map fillCell)))
    uk "UNIQUE_KEY" huk hcb]
  dsimp only
  rw [buildUniqueKey_ok cols (newRows.map (fun lr => (lr.1, lr.2.map fillCell)))
    uk "UNIQUE_KEY" huk hcb]
  dsimp only
  rw [c2_append cols "UNIQUE_KEY" (keyOf cols uk)
    (newRows.map (fun lr => (lr.1, lr.2.map fillCell)))
    (dbRows.map (fun lr => (lr.1, lr.2.map fillCell)))
    hcb hvalsF hwfFN hwfFD hsFN hsFD]
  dsimp only
  rw [c2_update cols "UNIQUE_KEY" (keyOf cols uk)
    (newRows.map (fun lr => (lr.1, lr.2.map fillCell)))
    (dbRows.map (fun lr => (lr.1, lr.2.map fillCell)))
    hcb hvalsF hwfFN hwfFD hsFN hsFD hkeysF]
  dsimp only
  cases td with
  | false => rfl
  | true =>
    simp only [if_true]
    rw [c2_delete cols "UNIQUE_KEY" (keyOf cols uk)
      (newRows.map (fun lr => (lr.1, lr.2.map fillCell)))
      (dbRows.map (fun lr => (lr.1, lr.2.map fillCell)))
      hcb hvalsF hwfFN hwfFD hsFN hsFD]
    rfl

/-- Witness for the amended C2: a two-row store with distinct keys, fed back
to itself, produces the empty batch. -/
theorem claim_C2_witness :
    updateDatabase
        ⟨["test", "foo"],
          [("1_3", [some "test1", some "1"]), ("2_3", [some "test2", some "2"])]⟩
        ⟨["test", "foo"],
          [("0", [some "test1", some "1"]), ("1", [some "test2", some "2"])]⟩
        ["test"] true =
      .ok ("ROW_ID" :: "ROW_VERSION" :: ["test", "foo"], []) :=
  claim_C2_amended ["test", "foo"]
    [("1_3", [some "test1", some "1"]), ("2_3", [some "test2", some "2"])]
    [("0", [some "test1", some "1"]), ("1", [some "test2", some "2"])]
    ["test"] true (by decide) (by decide) (by decide) (by decide) (by decide)
    (by decide)

/-! Machinery for claim C4: collapsing later duplicate-key rows of the new
dataset before `_update_rows` does not change its result. -/

/-- The normalized composite-key value of a row at key position `i` (the
value that becomes the row's index label after `fillna` and
`df.index = df[checkby]`). -/
def normKey (lr : String × List Cell) (i : Nat) : String :=
  (rowGet lr.2 i).getD ""

/-- Keep only the first row for each normalized key value at position `i`:
the rows of the new dataset that actually participate in the update
comparison. -/
def dedupByKeyVal (i : Nat) : List (String × List Cell) → List (String × List Cell)
  | [] => []
  | lr :: rest =>
    lr :: (dedupByKeyVal i rest).filter (fun x => !(normKey x i = normKey lr i))

/-- Drop every later row whose key value duplicates an earlier row's. -/
def DF.dropLaterDupKeys (df : DF) (cb : String) : DF :=
  match df.colIdx cb with
  | some i => { df with rows := dedupByKeyVal i df.rows }
  | none => df


theorem dedupByKeyVal_cons (i : Nat) (x : String × List Cell)
    (rest : List (String × List Cell)) :
    dedupByKeyVal i (x :: rest) =
      x :: (dedupByKeyVal i rest).filter (fun y => !(normKey y i = normKey x i)) :=
  rfl

theorem rowGet_fill_getD :
    ∀ (r : List Cell) (i : Nat),
      (rowGet (r.map fillCell) i).getD "" = (rowGet r i).getD ""
  | [], _ => rfl
  | _ :: _, 0 => rfl
  | _ :: t, i + 1 => rowGet_fill_getD t i

theorem keycell_fill :
    ∀ (r : List Cell) (i : Nat), i < r.length →
      rowGet (r.map fillCell) i = some ((rowGet r i).getD "")
  | [], i, h => absurd h (Nat.not_lt_zero i)
  | _ :: _, 0, _ => rfl
  | _ :: t, i + 1, h => keycell_fill t i (Nat.lt_of_succ_lt_succ h)

theorem normKey_fill (lr : String × List Cell) (i : Nat) :
    normKey (lr.1, lr.2.map fillCell) i = normKey lr i := by
  unfold normKey
  exact rowGet_fill_getD lr.2 i

theorem map_filter_comm {α β : Type} (f : α → β) (p : α → Bool) (q : β → Bool)
    (h : ∀ x, p x = q (f x)) :
    ∀ l : List α, (l.filter p).map f = (l.map f).filter q := by
  intro l
  induction l with
  | nil => rfl
  | cons x rest ih =>
    rw [List.filter_cons, List.map_cons, List.filter_cons, h x]
    cases hq : q (f x) with
    | true =>
      rw [if_pos rfl, if_pos rfl, List.map_cons, ih]
    | false =>
      rw [if_neg Bool.false_ne_true, if_neg Bool.false_ne_true]
      exact ih

theorem fillRow_dedupK (i : Nat) :
    ∀ l : List (String × List Cell),
      (dedupByKeyVal i l).map (fun lr => (lr.1, lr.2.map fillCell)) =
        dedupByKeyVal i (l.map (fun lr => (lr.1, lr.2.map fillCell))) := by
  intro l
  induction l with
  | nil => rfl
  | cons x rest ih =>
    rw [dedupByKeyVal_cons, List.map_cons, List.map_cons, dedupByKeyVal_cons]
    congr 1
    rw [map_filter_comm (fun lr : String × List Cell => (lr.1, lr.2.map fillCell))
      (fun y => !(normKey y i = normKey x i))
      (fun y => !(normKey y i = normKey (x.1, x.2.map fillCell) i))
      (fun y => by simp only [normKey_fill])]
    rw [ih]

theorem dedupK_subset (i : Nat) :
    ∀ (l : List (String × List Cell)) (lr : String × List Cell),
      lr ∈ dedupByKeyVal i l → lr ∈ l := by
  intro l
  induction l with
  | nil => intro lr h; cases h
  | cons x rest ih =>
    intro lr h
    rw [dedupByKeyVal_cons] at h
    rcases List.mem_cons.mp h with h' | h'
    · rw [h']; exact List.mem_cons_self _ _
    · exact List.mem_cons_of_mem _ (ih lr (List.mem_of_mem_filter h'))

theorem dedupK_first_key (i : Nat) :
    ∀ (l : List (String × List Cell)) (lr : String × List Cell), lr ∈ l →
      ∃ lr', lr' ∈ dedupByKeyVal i l ∧ normKey lr' i = normKey lr i := by
  intro l
  induction l with
  | nil => intro lr h; cases h
  | cons x rest ih =>
    intro lr h
    rcases List.mem_cons.mp h with h' | h'
    · exact ⟨x, List.mem_cons_self _ _, by rw [h']⟩
    · obtain ⟨lr', hmem, hkey⟩ := ih lr h'
      by_cases hk : normKey lr' i = normKey x i
      · exact ⟨x, List.mem_cons_self _ _, by rw [← hk, hkey]⟩
      · refine ⟨lr', ?_, hkey⟩
        rw [dedupByKeyVal_cons]
        refine List.mem_cons_of_mem _ (List.mem_filter.mpr ⟨hmem, ?_⟩)
        simpa using hk

theorem filter_dedupK_comm (i : Nat) (p : String × List Cell → Bool) :
    ∀ l : List (String × List Cell),
      (∀ x ∈ l, ∀ y ∈ l, normKey x i = normKey y i → p x = p y) →
      (dedupByKeyVal i l).filter p = dedupByKeyVal i (l.filter p) := by
  intro l
  induction l with
  | nil => intro _; rfl
  | cons x rest ih =>
    intro hp
    have hp' : ∀ a ∈ rest, ∀ b ∈ rest, normKey a i = normKey b i → p a = p b :=
      fun a ha b hb => hp a (List.mem_cons_of_mem _ ha) b (List.mem_cons_of_mem _ hb)
    rw [dedupByKeyVal_cons, List.filter_cons, List.filter_cons]
    cases hx : p x with
    | true =>
      rw [if_pos rfl, if_pos rfl, dedupByKeyVal_cons]
      congr 1
      rw [List.filter_comm, ih hp']
    | false =>
      rw [if_neg Bool.false_ne_true, if_neg Bool.false_ne_true]
      rw [List.filter_comm, ih hp']
      refine List.filter_eq_self.mpr ?_
      intro a ha
      have ha1 : a ∈ List.filter p rest := dedupK_subset i _ a ha
      have hap : p a = true := List.of_mem_filter ha1
      have ham : a ∈ rest := List.mem_of_mem_filter ha1
      have hne : normKey a i ≠ normKey x i := by
        intro hk
        have hpx := hp a (List.mem_cons_of_mem _ ham) x (List.mem_cons_self _ _) hk
        rw [hap, hx] at hpx
        exact Bool.noConfusion hpx
      simpa using hne

theorem dedupByLabel_cons (x : String × List Cell)
    (rest : List (String × List Cell)) :
    dedupByLabel (x :: rest) =
      x :: (dedupByLabel rest).filter (fun y => !(y.1 = x.1)) :=
  rfl

theorem setIdx_rows (df : DF) (i : Nat) :
    (df.setIndexToCol i).rows = df.rows.map (fun lr => (normKey lr i, lr.2)) :=
  rfl

theorem map_setIdx_dedupK (i : Nat) :
    ∀ l : List (String × List Cell),
      (dedupByKeyVal i l).map (fun lr => (normKey lr i, lr.2)) =
        dedupByLabel (l.map (fun lr => (normKey lr i, lr.2))) := by
  intro l
  induction l with
  | nil => rfl
  | cons x rest ih =>
    rw [dedupByKeyVal_cons, List.map_cons, List.map_cons, dedupByLabel_cons]
    dsimp only
    congr 1
    rw [map_filter_comm (fun lr : String × List Cell => (normKey lr i, lr.2))
      (fun y => !(normKey y i = normKey x i))
      (fun y => !(y.1 = normKey x i))
      (fun y => rfl)]
    rw [ih]

theorem dedupByLabel_labels_nodup :
    ∀ l : List (String × List Cell),
      ((dedupByLabel l).map (fun lr => lr.1)).Nodup := by
  intro l
  induction l with
  | nil => exact List.nodup_nil
  | cons x rest ih =>
    rw [dedupByLabel_cons, List.map_cons]
    refine List.nodup_cons.mpr ⟨?_, ?_⟩
    · intro hmem
      obtain ⟨y, hy, hyeq⟩ := List.mem_map.mp hmem
      have := List.of_mem_filter hy
      simp only [Bool.not_eq_true', decide_eq_false_iff_not] at this
      exact this hyeq
    · exact ih.sublist ((List.filter_sublist _).map _)

theorem dedupByLabel_idem (l : List (String × List Cell)) :
    dedupByLabel (dedupByLabel l) = dedupByLabel l :=
  dedupByLabel_of_nodup _ (dedupByLabel_labels_nodup l)

theorem keycells_contains (i : Nat) (F : List (String × List Cell))
    (hF : ∀ lr ∈ F, rowGet lr.2 i = some (normKey lr i)) (v : Cell) :
    ((dedupByKeyVal i F).map (fun lr => rowGet lr.2 i)).contains v =
      (F.map (fun lr => rowGet lr.2 i)).contains v := by
  have hiff : v ∈ (dedupByKeyVal i F).map (fun lr => rowGet lr.2 i) ↔
      v ∈ F.map (fun lr => rowGet lr.2 i) := by
    constructor
    · intro hv
      obtain ⟨lr, hm, heq⟩ := List.mem_map.mp hv
      exact List.mem_map.mpr ⟨lr, dedupK_subset i F lr hm, heq⟩
    · intro hv
      obtain ⟨lr, hm, heq⟩ := List.mem_map.mp hv
      obtain ⟨lr', hm', hkey⟩ := dedupK_first_key i F lr hm
      refine List.mem_map.mpr ⟨lr', hm', ?_⟩
      rw [hF lr' (dedupK_subset i F lr' hm'), hkey, ← hF lr hm, heq]
  cases hc : (F.map (fun lr => rowGet lr.2 i)).contains v with
  | true =>
    have : v ∈ F.map (fun lr => rowGet lr.2 i) := by
      simpa using hc
    simpa using hiff.mpr this
  | false =>
    have : v ∉ F.map (fun lr => rowGet lr.2 i) := by
      simpa using hc
    have h2 : v ∉ (dedupByKeyVal i F).map (fun lr => rowGet lr.2 i) :=
      fun hv => this (hiff.mp hv)
    simpa using h2

theorem getLeftUnionDf_ok (A B : DF) (cb : String) (ia ib : Nat)
    (ha : A.colIdx cb = some ia) (hb : B.colIdx cb = some ib) :
    getLeftUnionDf A B cb =
      .ok { cols := A.cols,
            rows := A.rows.filter (fun lr =>
              ((B.rows.map (fun x => rowGet x.2 ib)).contains
                (rowGet lr.2 ia))) } := by
  simp only [getLeftUnionDf, checkValidDf, ha, hb, Option.isSome_some, if_true,
    Option.getD_some]
  rfl

theorem getLeftUnionDf_err_right (A B : DF) (cb : String) (ia : Nat)
    (ha : A.colIdx cb = some ia) (hb : B.colIdx cb = none) :
    getLeftUnionDf A B cb =
      .error ("ValueError: " ++ cb ++ " column must exist in both dataframes") := by
  simp only [getLeftUnionDf, checkValidDf, ha, hb, Option.isSome_some,
    Option.isSome_none, if_true, Bool.false_eq_true, if_false]
  rfl

theorem except_bind_ok {ε α β : Type} (a : α) (f : α → Except ε β) :
    bind (Except.ok a : Except ε α) f = f a :=
  rfl

theorem exceptMap_bind_congr {ε α β γ : Type} (proj : β → γ) (e : Except ε α)
    (f g : α → Except ε β)
    (h : ∀ x, Except.map proj (f x) = Except.map proj (g x)) :
    Except.map proj (bind e f) = Except.map proj (bind e g) := by
  cases e with
  | error err => rfl
  | ok x => exact h x

/-- Claim C4 (confirmed).  Duplicate-key collapse on the new-dataset side of
`_update_rows` (lines 461-466): dropping from the new dataset every later row
whose key value duplicates an earlier row's key changes nothing — only the
first occurrence of each key participates in the update comparison, every
later occurrence is silently discarded by the
`updatesetdf[~updatesetdf.index.duplicated()]` step, and no error arises from
the duplicates (the outcome, value or error, is identical).  The hypothesis
states that every new-dataset row carries one cell per column, which holds
for every pandas dataframe. -/
theorem claim_C4 (new db : DF) (cb : String)
    (hwf : ∀ lr ∈ new.rows, lr.2.length = new.cols.length) :
    updateRowsResult new db cb =
      updateRowsResult (new.dropLaterDupKeys cb) db cb := by
  cases hidx : new.colIdx cb with
  | none =>
    unfold DF.dropLaterDupKeys
    rw [hidx]
  | some i =>
    have hdrop : new.dropLaterDupKeys cb = ⟨new.cols, dedupByKeyVal i new.rows⟩ := by
      unfold DF.dropLaterDupKeys
      rw [hidx]
    rw [hdrop]
    have hlt : i < new.cols.length := by
      have h2 := colIdxL_getElem new.cols cb i hidx
      by_contra hnl
      rw [List.getElem?_eq_none (Nat.le_of_not_lt hnl)] at h2
      exact Option.noConfusion h2
    have hni : DF.colIdx (DF.fillna new) cb = some i := hidx
    have hni2 : DF.colIdx
        (DF.fillna ⟨new.cols, dedupByKeyVal i new.rows⟩) cb = some i := hidx
    cases hdb : db.colIdx cb with
    | none =>
      have hdbn : DF.colIdx (DF.fillna db) cb = none := hdb
      have e1 := getLeftUnionDf_err_right (DF.fillna new) (DF.fillna db) cb i hni hdbn
      have e2 := getLeftUnionDf_err_right
        (DF.fillna ⟨new.cols, dedupByKeyVal i new.rows⟩) (DF.fillna db) cb i hni2 hdbn
      unfold updateRowsResult updateRows
      dsimp only
      rw [e1, e2]
      rfl
    | some j =>
      have hdj : DF.colIdx (DF.fillna db) cb = some j := hdb
      have hF : ∀ lr ∈ new.rows.map (fun lr => (lr.1, lr.2.map fillCell)),
          rowGet lr.2 i = some (normKey lr i) := by
        intro lr hm
        obtain ⟨y, hy, rfl⟩ := List.mem_map.mp hm
        dsimp only
        rw [normKey_fill]
        rw [keycell_fill y.2 i (by rw [hwf y hy]; exact hlt)]
        rfl
      have hU1 : getLeftUnionDf (DF.fillna new) (DF.fillna db) cb =
          .ok ⟨new.cols,
            (new.rows.map (fun lr => (lr.1, lr.2.map fillCell))).filter
              (fun lr =>
                (((db.rows.map (fun lr => (lr.1, lr.2.map fillCell))).map
                  (fun x => rowGet x.2 j)).contains (rowGet lr.2 i)))⟩ := by
        rw [getLeftUnionDf_ok (DF.fillna new) (DF.fillna db) cb i j hni hdj]
        rfl
      have hU2 : getLeftUnionDf
            (DF.fillna ⟨new.cols, dedupByKeyVal i new.rows⟩) (DF.fillna db) cb =
          .ok ⟨new.cols,
            (dedupByKeyVal i
              (new.rows.map (fun lr => (lr.1, lr.2.map fillCell)))).filter
              (fun lr =>
                (((db.rows.map (fun lr => (lr.1, lr.2.map fillCell))).map
                  (fun x => rowGet x.2 j)).contains (rowGet lr.2 i)))⟩ := by
        rw [getLeftUnionDf_ok
          (DF.fillna ⟨new.cols, dedupByKeyVal i new.rows⟩) (DF.fillna db) cb i j
          hni2 hdj]
        simp only [DF.fillna]
        rw [fillRow_dedupK]
      have hV1 : getLeftUnionDf (DF.fillna db) (DF.fillna new) cb =
          .ok ⟨db.cols,
            (db.rows.map (fun lr => (lr.1, lr.2.map fillCell))).filter
              (fun lr =>
                (((new.rows.map (fun lr => (lr.1, lr.2.map fillCell))).map
                  (fun x => rowGet x.2 i)).contains (rowGet lr.2 j)))⟩ := by
        rw [getLeftUnionDf_ok (DF.fillna db) (DF.fillna new) cb j i hdj hni]
        rfl
      have hV2 : getLeftUnionDf (DF.fillna db)
            (DF.fillna ⟨new.cols, dedupByKeyVal i new.rows⟩) cb =
          .ok ⟨db.cols,
            (db.rows.map (fun lr => (lr.1, lr.2.map fillCell))).filter
              (fun lr =>
                (((new.rows.map (fun lr => (lr.1, lr.2.map fillCell))).map
                  (fun x => rowGet x.2 i)).contains (rowGet lr.2 j)))⟩ := by
        rw [getLeftUnionDf_ok (DF.fillna db)
          (DF.fillna ⟨new.cols, dedupByKeyVal i new.rows⟩) cb j i hdj hni2]
        simp only [DF.fillna]
        rw [fillRow_dedupK]
        congr 1
        congr 1
        exact List.filter_congr (fun lr _ =>
          keycells_contains i (new.rows.map (fun lr => (lr.1, lr.2.map fillCell)))
            hF (rowGet lr.2 j))
      have hkey : ∀ x ∈ new.rows.map (fun lr => (lr.1, lr.2.map fillCell)),
          ∀ y ∈ new.rows.map (fun lr => (lr.1, lr.2.map fillCell)),
          normKey x i = normKey y i →
          ((((db.rows.map (fun lr => (lr.1, lr.2.map fillCell))).map
            (fun x => rowGet x.2 j)).contains (rowGet x.2 i)) : Bool) =
          (((db.rows.map (fun lr => (lr.1, lr.2.map fillCell))).map
            (fun x => rowGet x.2 j)).contains (rowGet y.2 i)) := by
        intro x hx y hy hk
        rw [hF x hx, hF y hy, hk]
      have hrows : dedupByLabel
            (((dedupByKeyVal i
                (new.rows.map (fun lr => (lr.1, lr.2.map fillCell)))).filter
              (fun lr =>
                (((db.rows.map (fun lr => (lr.1, lr.2.map fillCell))).map
                  (fun x => rowGet x.2 j)).contains (rowGet lr.2 i)))).map
              (fun lr => (normKey lr i, lr.2))) =
          dedupByLabel
            (((new.rows.map (fun lr => (lr.1, lr.2.map fillCell))).filter
              (fun lr =>
                (((db.rows.map (fun lr => (lr.1, lr.2.map fillCell))).map
                  (fun x => rowGet x.2 j)).contains (rowGet lr.2 i)))).map
              (fun lr => (normKey lr i, lr.2))) := by
        rw [filter_dedupK_comm i _ _ hkey, map_setIdx_dedupK, dedupByLabel_idem]
      have h2 : DF.dropDupIndex (DF.setIndexToCol
            (⟨new.cols,
              (dedupByKeyVal i
                (new.rows.map (fun lr => (lr.1, lr.2.map fillCell)))).filter
                (fun lr =>
                  (((db.rows.map (fun lr => (lr.1, lr.2.map fillCell))).map
                    (fun x => rowGet x.2 j)).contains (rowGet lr.2 i)))⟩ : DF) i) =
          DF.dropDupIndex (DF.setIndexToCol
            (⟨new.cols,
              (new.rows.map (fun lr => (lr.1, lr.2.map fillCell))).filter
                (fun lr =>
                  (((db.rows.map (fun lr => (lr.1, lr.2.map fillCell))).map
                    (fun x => rowGet x.2 j)).contains (rowGet lr.2 i)))⟩ : DF) i) :=
        congrArg (DF.mk new.cols) hrows
      unfold updateRowsResult updateRows
      dsimp only
      rw [hU1, hU2, except_bind_ok, except_bind_ok]
      rw [hV1, hV2, except_bind_ok, except_bind_ok]
      rw [hni, hni2, hdj]
      simp only [Option.getD_some]
      rw [h2]
      refine exceptMap_bind_congr _ _ _ _ (fun u => ?_)
      split
      next hc => rfl
      next hc =>
        split
        next hany =>
          split
          next hdup => rfl
          next hdup =>
            refine exceptMap_bind_congr _ _ _ _ (fun pairs => ?_)
            split
            next hlen => rfl
            next hlen => rfl
        next hany => rfl

theorem claim_C4_witness :
    (∀ lr ∈ (⟨["test", "foo"],
        [("0", [some "k", some "a"]), ("1", [some "k", some "b"]),
         ("2", [none, some "c"])]⟩ : DF).rows,
      lr.2.length = (⟨["test", "foo"],
        [("0", [some "k", some "a"]), ("1", [some "k", some "b"]),
         ("2", [none, some "c"])]⟩ : DF).cols.length) ∧
    updateRowsResult
        ⟨["test", "foo"],
          [("0", [some "k", some "a"]), ("1", [some "k", some "b"]),
           ("2", [none, some "c"])]⟩
        ⟨["test", "foo"],
          [("5_1", [some "k", some "z"]), ("6_1", [some "", some "c"])]⟩
        "test" =
      updateRowsResult
        ((⟨["test", "foo"],
          [("0", [some "k", some "a"]), ("1", [some "k", some "b"]),
           ("2", [none, some "c"])]⟩ : DF).dropLaterDupKeys "test")
        ⟨["test", "foo"],
          [("5_1", [some "k", some "z"]), ("6_1", [some "", some "c"])]⟩
        "test" :=
  ⟨by decide,
    claim_C4
      ⟨["test", "foo"],
        [("0", [some "k", some "a"]), ("1", [some "k", some "b"]),
         ("2", [none, some "c"])]⟩
      ⟨["test", "foo"],
        [("5_1", [some "k", some "z"]), ("6_1", [some "", some "c"])]⟩
      "test" (by decide)⟩
